import Mathlib

/-!
Librarian, the bookmark repository.

A shallow embedding of `bookmark/bookmark.go` (package `bookmark`), of the handlers of
`http/handler.go`, and of the update command of `cli/cli.go` with the request that
`http/client.go` sends for it, and theorems about them.

The repository keeps its records in a storm database and checks its inputs with the
`validator` package.  Both are libraries outside the repository; what the repository asks
of them is fixed by the struct tags of `NewBookmark` and `Bookmark`
(`validate:"required"`, `storm:"id,increment"`, `storm:"unique"`, `storm:"index"`), and the
definitions `validateNewBookmark`, `validateBookmark` and `DB.*` below describe the
behaviour of the libraries under these tags.

Conventions of the embedding:
* a Go `string` is a `String` (text, which the JSON codec of the store keeps as it is), a Go
  `int` an `Int` (the identifier counter never gets near the end of the 64 bit range);
* a Go `[]string` is an `Option (List String)`, `none` being the nil slice (the zero value);
* a `time.Time` is a `Time`: the instant it denotes, counted in nanoseconds from the zero
  value `time.Time{}`, together with its zone, which is UTC (the location pointer is nil) or an
  offset in minutes; the zero value is the instant 0 in UTC, and the same instant in another
  zone is another value (`reflect.DeepEqual` tells them apart); the order of two values is
  the order of their instants; a zone whose offset is not a whole number of minutes has no
  value here (the text the store keeps cannot carry it);
* the JSON codec of the store writes a `time.Time` as RFC 3339 text and refuses a value whose
  year, in its zone, is not between 0 and 9999, or whose offset is 24 hours or more
  (`Time.marshals`); the system clock stays inside these years (`nowUTC`); a record read
  from the store is taken with the timestamps that were written (the library gives a value
  of offset 0 back in UTC, with the same instant);
* a method with receiver `*Store` takes the database state and returns the new state next to
  its result; the readings of the clock are arguments; the context argument and the calls of
  the logger have no effect on either and are left out;
* a call that fails inside a storm transaction leaves the database as it was.
-/

namespace Librarian

/-- A `time.Time`: the instant it denotes, in nanoseconds from the zero value `time.Time{}`,
and its zone: `none` when the location pointer is nil (the value is in UTC), `some m` for
another location, whose offset at this instant is `m` minutes east of UTC.  The zero value
`time.Time{}` is `⟨0, none⟩`. -/
structure Time where
  instant : Int
  zone : Option Int
deriving DecidableEq, Repr

/-- The numeral `n` is the instant `n` in UTC, so `0` is the zero value `time.Time{}`. -/
instance (n : Nat) : OfNat Time n := ⟨⟨n, none⟩⟩

/-- The order of the instants, as `Time.Before` and `Time.After` compare them. -/
instance : LE Time := ⟨fun a b => a.instant ≤ b.instant⟩

instance (a b : Time) : Decidable (a ≤ b) := inferInstanceAs (Decidable (a.instant ≤ b.instant))

/-- First instant of the year 0 in UTC (366 days before the zero value). -/
def yearZero : Int := -31622400000000000

/-- First instant of the year 10000 in UTC. -/
def yearTenThousand : Int := 315537897600000000000

/-- The method `Time.MarshalJSON`, which the JSON codec of the store calls, returns without
an error: the text is the date and time of day in the zone of the value followed by `Z` or
`±hh:mm`, and the method refuses a year that is not between 0 and 9999 and an offset whose
hours are not between 0 and 23. -/
def Time.marshals (t : Time) : Bool :=
  let m := t.zone.getD 0
  decide (m.natAbs < 1440 ∧ yearZero ≤ t.instant + m * 60000000000 ∧
    t.instant + m * 60000000000 < yearTenThousand)

/-- The call `time.Now().UTC()` when the clock reads `now`: the instant of the reading, in
UTC.  The system clock does not leave the years 0 to 9999; a reading outside of them is taken
at the nearest instant inside. -/
def nowUTC (now : Time) : Time :=
  ⟨max yearZero (min now.instant (yearTenThousand - 1)), none⟩

/-- The Go variable `csvHeader`. -/
def csvHeader : List String :=
  ["title", "url", "tags", "notes", "document", "created_at", "updated_at"]

/-- The Go type `NewBookmark`. -/
structure NewBookmark where
  Title : String
  URL : String
  Tags : Option (List String)
  Notes : String
deriving DecidableEq, Repr

/-- The Go type `BookmarkSummary`. -/
structure BookmarkSummary where
  ID : Int
  Title : String
  URL : String
  Tags : Option (List String)
  CreatedAt : Time
  UpdatedAt : Time
deriving DecidableEq, Repr

/-- The Go type `Bookmark`. -/
structure Bookmark where
  ID : Int
  Title : String
  URL : String
  Tags : Option (List String)
  Notes : String
  Document : String
  CreatedAt : Time
  UpdatedAt : Time
deriving DecidableEq, Repr

/-- Names of the struct fields that carry a `validate:"required"` tag. -/
inductive Field where
  | ID
  | Title
  | URL
deriving DecidableEq, Repr

/-- Errors `csvReader.Read` can return: `io.EOF`, a `csv.ParseError` wrapping
`csv.ErrFieldCount` (the record is returned with it), or any other error (no record). -/
inductive ReadErr where
  | EOF
  | FieldCount
  | Other
deriving DecidableEq, Repr

/-- The error values that occur in package `bookmark`. -/
inductive Err where
  /-- The type `validator.ValidationErrors`: one entry per failing field, in field order. -/
  | Validation (fields : List Field)
  /-- The value `storm.ErrAlreadyExists`: a unique index already holds the value. -/
  | AlreadyExists
  /-- The value `storm.ErrNotFound`. -/
  | StormNotFound
  /-- The value `storm.ErrNoID`. -/
  | StormNoID
  /-- The package variable `ErrNotFound` ("bookmark not found"). -/
  | ErrNotFound
  /-- The value `errors.New("Not implemented")` of `Update`. -/
  | NotImplemented
  /-- The value `errors.New("invalid csv file")` of `ImportCSV`. -/
  | InvalidCSV
  /-- The type `*time.ParseError` returned by `time.Parse`. -/
  | TimeParse
  /-- An error returned by `csvReader.Read`. -/
  | Read (e : ReadErr)
  /-- The type `*json.MarshalerError`: the codec of the store cannot write a `time.Time`. -/
  | Marshal
deriving DecidableEq, Repr

/-- Result of a Go function that returns `(*T, error)` and may also stop with a run-time
panic (an index out of range). -/
inductive Res (α : Type) where
  | ok (a : α)
  | err (e : Err)
  | panic
deriving DecidableEq, Repr

/-! ## The validator -/

/-- The call `validate.Struct(nbm)` for a `*NewBookmark`: the fields tagged `required` that
hold their zero value, in field order; the empty list stands for a nil error. -/
def validateNewBookmark (nbm : NewBookmark) : List Field :=
  (if nbm.Title = "" then [Field.Title] else []) ++
  (if nbm.URL = "" then [Field.URL] else [])

/-- The call `validate.Struct(bm)` for a `*Bookmark`: `ID`, `Title` and `URL` are tagged
`required`. -/
def validateBookmark (bm : Bookmark) : List Field :=
  (if bm.ID = 0 then [Field.ID] else []) ++
  (if bm.Title = "" then [Field.Title] else []) ++
  (if bm.URL = "" then [Field.URL] else [])

/-! ## The storm database -/

/-- State of the storm database as far as type `Bookmark` is concerned: the records of the
bucket `Bookmark` in key order, and the value of the metadata key `IDcounter` (`0` while the
key is absent).  The unique indexes on `Title` and `URL` hold one entry per record whose
field is not the zero value; they are represented by the records themselves. -/
structure DB where
  bucket : List Bookmark
  counter : Int
deriving DecidableEq, Repr

/-- A database file that was just created. -/
def DB.empty : DB := ⟨[], 0⟩

/-- The call `bucket.Put(id, raw)`: replaces the record stored under the key, or inserts the
record at its place in key order. -/
def put (bm : Bookmark) : List Bookmark → List Bookmark
  | [] => [bm]
  | r :: rs =>
    if r.ID = bm.ID then bm :: rs
    else if bm.ID < r.ID then bm :: r :: rs
    else r :: put bm rs

/-- Probe of the unique index on field `f`: the value `v` is held by a record other than
`id`. -/
def DB.taken (db : DB) (f : Bookmark → String) (id : Int) (v : String) : Bool :=
  db.bucket.any (fun r => decide (r.ID ≠ id) && decide (f r = v))

/-- The call `db.Save(bm)`.  A zero `ID` is replaced by the incremented counter
(`storm:"id,increment"`, starting at 1).  A non-zero `Title` or `URL` that the unique index
holds for another record gives `ErrAlreadyExists`; a zero value is not indexed.  The record is
written with the JSON codec, which fails on a `CreatedAt` or `UpdatedAt` it cannot write
(storm checks the unique indexes and encodes the timestamps in one loop over the fields; a
record that fails on both counts is given the error of the index here).  The
transaction is rolled back on an error, so the state (counter included) only changes on
success.  Returns the record as it was saved (storm writes the new `ID` through the
pointer). -/
def DB.Save (db : DB) (bm : Bookmark) : Except Err (Bookmark × DB) :=
  let counter := if bm.ID = 0 then db.counter + 1 else db.counter
  let id := if bm.ID = 0 then counter else bm.ID
  if bm.Title ≠ "" ∧ db.taken Bookmark.Title id bm.Title = true then .error .AlreadyExists
  else if bm.URL ≠ "" ∧ db.taken Bookmark.URL id bm.URL = true then .error .AlreadyExists
  else if bm.CreatedAt.marshals = false ∨ bm.UpdatedAt.marshals = false then .error .Marshal
  else
    let saved := { bm with ID := id }
    .ok (saved, ⟨put saved db.bucket, counter⟩)

/-- The call `db.One("ID", id, bm)`: the record stored under the key. -/
def DB.OneID (db : DB) (id : Int) : Except Err Bookmark :=
  match db.bucket.find? (fun r => decide (r.ID = id)) with
  | some r => .ok r
  | none => .error .StormNotFound

/-- The call `db.One("URL", url, bm)`: looks the value up in the unique index on `URL`, which
has no entry for the empty string. -/
def DB.OneURL (db : DB) (url : String) : Except Err Bookmark :=
  if url = "" then .error .StormNotFound
  else
    match db.bucket.find? (fun r => decide (r.URL = url)) with
    | some r => .ok r
    | none => .error .StormNotFound

/-- What storm's `Update` writes: every field of `bm` that is not the zero value of its type
(`reflect.DeepEqual` with the zero value; for a `time.Time` that is `time.Time{}`, the
instant 0 in UTC, and not the same instant in another zone) replaces the field of the stored
record `cur`; a zero field leaves it as it is. -/
def merge (cur bm : Bookmark) : Bookmark :=
  { ID := if bm.ID = 0 then cur.ID else bm.ID
    Title := if bm.Title = "" then cur.Title else bm.Title
    URL := if bm.URL = "" then cur.URL else bm.URL
    Tags := if bm.Tags = none then cur.Tags else bm.Tags
    Notes := if bm.Notes = "" then cur.Notes else bm.Notes
    Document := if bm.Document = "" then cur.Document else bm.Document
    CreatedAt := if bm.CreatedAt = 0 then cur.CreatedAt else bm.CreatedAt
    UpdatedAt := if bm.UpdatedAt = 0 then cur.UpdatedAt else bm.UpdatedAt }

/-- The call `db.Update(bm)`: `ErrNoID` for a zero `ID`, `ErrNotFound` when no record is
stored under the `ID`; otherwise the stored record, with the non-zero fields of `bm` written
over it, is saved again (the unique indexes are checked for the non-zero fields, and the
JSON codec fails on a `CreatedAt` or `UpdatedAt` it cannot write, as in `DB.Save`).  The
argument `bm` itself is not written to. -/
def DB.Update (db : DB) (bm : Bookmark) : Except Err DB :=
  if bm.ID = 0 then .error .StormNoID
  else
    match db.OneID bm.ID with
    | .error e => .error e
    | .ok cur =>
      if bm.Title ≠ "" ∧ db.taken Bookmark.Title bm.ID bm.Title = true then
        .error .AlreadyExists
      else if bm.URL ≠ "" ∧ db.taken Bookmark.URL bm.ID bm.URL = true then
        .error .AlreadyExists
      else if (merge cur bm).CreatedAt.marshals = false ∨
          (merge cur bm).UpdatedAt.marshals = false then .error .Marshal
      else .ok ⟨put (merge cur bm) db.bucket, db.counter⟩

/-- The call `db.DeleteStruct(&Bookmark{ID: id})`: `ErrNotFound` when no record is stored
under the key, otherwise the record and its index entries are removed. -/
def DB.DeleteStruct (db : DB) (id : Int) : Except Err DB :=
  if db.bucket.any (fun r => decide (r.ID = id)) = true then
    .ok ⟨db.bucket.filter (fun r => decide (r.ID ≠ id)), db.counter⟩
  else .error .StormNotFound

/-- The call `db.All(&bms)`: every record of the bucket in key order; an empty result is not
an error. -/
def DB.All (db : DB) : Except Err (List Bookmark) := .ok db.bucket

/-! ## The methods of `Store` -/

/-- The record `bm` that `Store.Add` builds and hands to `Save`. -/
def newRecord (now₁ now₂ : Time) (nbm : NewBookmark) : Bookmark :=
  { ID := 0
    Title := nbm.Title
    URL := nbm.URL
    Tags := nbm.Tags
    Notes := nbm.Notes
    Document := ""
    CreatedAt := nowUTC now₁
    UpdatedAt := nowUTC now₂ }

/-- The Go method `Store.Add`; `now₁` and `now₂` are what the clock reads at the two calls of
`time.Now()`. -/
def Store.Add (db : DB) (now₁ now₂ : Time) (nbm : NewBookmark) : Except Err Bookmark × DB :=
  match validateNewBookmark nbm with
  | f :: fs => (.error (.Validation (f :: fs)), db)
  | [] =>
    let bm : Bookmark :=
      { ID := 0
        Title := nbm.Title
        URL := nbm.URL
        Tags := nbm.Tags
        Notes := nbm.Notes
        Document := ""
        CreatedAt := nowUTC now₁
        UpdatedAt := nowUTC now₂ }
    match db.Save bm with
    | .error e => (.error e, db)
    | .ok (saved, db') => (.ok saved, db')

/-- The Go method `Store.Update`. -/
def Store.Update (db : DB) (bm : Bookmark) (onlyFields : List String) :
    Except Err Bookmark × DB :=
  if onlyFields.length ≠ 0 then (.error .NotImplemented, db)
  else
    match validateBookmark bm with
    | f :: fs => (.error (.Validation (f :: fs)), db)
    | [] =>
      match db.Update bm with
      | .error e => if e = .StormNotFound then (.error .ErrNotFound, db) else (.error e, db)
      | .ok db' => (.ok bm, db')

/-- The Go method `Store.Delete`; `none` is the nil error. -/
def Store.Delete (db : DB) (id : Int) : Option Err × DB :=
  match db.DeleteStruct id with
  | .error e => if e = .StormNotFound then (some .ErrNotFound, db) else (some e, db)
  | .ok db' => (none, db')

/-- The Go method `Store.Get`. -/
def Store.Get (db : DB) (id : Int) : Except Err Bookmark :=
  match db.OneID id with
  | .error e => if e = .StormNotFound then .error .ErrNotFound else .error e
  | .ok bm => .ok bm

/-- The Go method `Store.GetByURL`. -/
def Store.GetByURL (db : DB) (url : String) : Except Err Bookmark :=
  match db.OneURL url with
  | .error e => if e = .StormNotFound then .error .ErrNotFound else .error e
  | .ok bm => .ok bm

/-- The summary `List` builds for one record. -/
def summary (bm : Bookmark) : BookmarkSummary :=
  { ID := bm.ID
    Title := bm.Title
    URL := bm.URL
    Tags := bm.Tags
    CreatedAt := bm.CreatedAt
    UpdatedAt := bm.UpdatedAt }

/-! ## CSV import -/

/-- One result `(record, err)` of `csvReader.Read()`; a nil record is the empty list.  The
reader is `csv.NewReader(r)` with `Comma = csvComma`. -/
structure ReadResult where
  record : List String
  err : Option ReadErr
deriving DecidableEq, Repr

/-- The loop of the Go function `validateCSVHeader` from index `i` on; `none` is the panic of
`csvHeader[i]` with `i` out of range. -/
def validateCSVHeaderFrom (i : Nat) : List String → Option Bool
  | [] => some true
  | h :: rest =>
    match csvHeader[i]? with
    | none => none
    | some c => if h ≠ c then some false else validateCSVHeaderFrom (i + 1) rest

/-- The Go function `validateCSVHeader`. -/
def validateCSVHeader (header : List String) : Option Bool :=
  validateCSVHeaderFrom 0 header

/-- The call `strings.Split(s, ";")` on the characters of `s`: `cur` holds the piece being
read, in reverse. -/
def splitSemi (cur : List Char) : List Char → List String
  | [] => [String.mk cur.reverse]
  | c :: cs =>
    if c = ';' then String.mk cur.reverse :: splitSemi [] cs else splitSemi (c :: cur) cs

/-- The Go function `parseBookmark`; `parseTime` is `time.Parse(time.RFC3339, ·)`.  The
index expressions `data[i]` are evaluated in the order of the Go text, each one panics when
`i` is out of range. -/
def parseBookmark (parseTime : String → Option Time) (data : List String) : Res Bookmark :=
  match data[2]? with
  | none => .panic
  | some d2 =>
    let tags := splitSemi [] d2.data
    match data[5]? with
    | none => .panic
    | some d5 =>
      match parseTime d5 with
      | none => .err .TimeParse
      | some cr =>
        match data[6]? with
        | none => .panic
        | some d6 =>
          match parseTime d6 with
          | none => .err .TimeParse
          | some up =>
            match data[0]?, data[1]?, data[3]?, data[4]? with
            | some d0, some d1, some d3, some d4 =>
              .ok { ID := 0
                    Title := d0
                    URL := d1
                    Tags := some tags
                    Notes := d3
                    Document := d4
                    CreatedAt := cr
                    UpdatedAt := up }
            | _, _, _, _ => .panic

/-- The `for` loop of `Store.ImportCSV` over the results the reader still has to give; when
the list is used up the reader returns `io.EOF`. -/
def importRows (parseTime : String → Option Time) (db : DB) : List ReadResult → Res Unit × DB
  | [] => (.ok (), db)
  | r :: rest =>
    if r.err = some .EOF then (.ok (), db)
    else
      match parseBookmark parseTime r.record with
      | .panic => (.panic, db)
      | .err e => (.err e, db)
      | .ok bm =>
        match db.Save bm with
        | .error e => (.err e, db)
        | .ok (_, db') => importRows parseTime db' rest

/-- The Go method `Store.ImportCSV`, run on the results `reads` that the successive calls of
`csvReader.Read()` give (after them the reader returns `io.EOF`). -/
def Store.ImportCSV (parseTime : String → Option Time) (db : DB) (reads : List ReadResult) :
    Res Unit × DB :=
  match reads with
  | [] => (.err (.Read .EOF), db)
  | h :: rest =>
    match h.err with
    | some e => (.err (.Read e), db)
    | none =>
      match validateCSVHeader h.record with
      | none => (.panic, db)
      | some false => (.err .InvalidCSV, db)
      | some true => importRows parseTime db rest

/-- The Go method `Store.List` (declared after the other methods: inside a declaration
named `Store.f` the name `List` refers to this method). -/
def Store.List (db : DB) : Except Err (List BookmarkSummary) :=
  match db.All with
  | .error e => .error e
  | .ok bms => .ok (bms.foldl (fun bs bm => bs ++ [summary bm]) [])

/-! ## Sequences of calls -/

/-- A call of one of the methods that write to the store. -/
inductive Op where
  | Add (nbm : NewBookmark) (now₁ now₂ : Time)
  | Update (bm : Bookmark) (onlyFields : List String)
  | Delete (id : Int)
  | ImportCSV (reads : List ReadResult)
deriving DecidableEq, Repr

/-- State of the database after the call. -/
def Op.exec (parseTime : String → Option Time) (db : DB) : Op → DB
  | .Add nbm now₁ now₂ => (Store.Add db now₁ now₂ nbm).2
  | .Update bm onlyFields => (Store.Update db bm onlyFields).2
  | .Delete id => (Store.Delete db id).2
  | .ImportCSV reads => (Store.ImportCSV parseTime db reads).2

/-- State of the database after a sequence of calls. -/
def run (parseTime : String → Option Time) (db : DB) (ops : List Op) : DB :=
  ops.foldl (Op.exec parseTime) db

/-- The identifier a call returns when it is a successful `Add`. -/
def Op.addId (db : DB) : Op → Option Int
  | .Add nbm now₁ now₂ =>
    match (Store.Add db now₁ now₂ nbm).1 with
    | .ok bm => some bm.ID
    | .error _ => none
  | _ => none

/-- The identifiers returned by the successful `Add`s of a sequence of calls, in call
order. -/
def addIds (parseTime : String → Option Time) : DB → List Op → List Int
  | _, [] => []
  | db, op :: ops =>
    match op.addId db with
    | some id => id :: addIds parseTime (op.exec parseTime db) ops
    | none => addIds parseTime (op.exec parseTime db) ops

/-- Invariant of the store: the records are in key order with keys between 1 and the
counter, and no two records share a non-empty title or a non-empty url. -/
def WF (db : DB) : Prop :=
  db.bucket.Pairwise (fun a b => a.ID < b.ID) ∧
  0 ≤ db.counter ∧
  (∀ r ∈ db.bucket, 0 < r.ID ∧ r.ID ≤ db.counter) ∧
  (∀ a ∈ db.bucket, ∀ b ∈ db.bucket, a.Title = b.Title → a.Title ≠ "" → a.ID = b.ID) ∧
  (∀ a ∈ db.bucket, ∀ b ∈ db.bucket, a.URL = b.URL → a.URL ≠ "" → a.ID = b.ID)

instance (db : DB) : Decidable (WF db) := by
  unfold WF
  infer_instance

/-- Value of a decimal digit. -/
def digitVal (c : Char) : Option Nat :=
  if c.isDigit then some (c.toNat - 48) else none

/-- Reads a number of exactly two digits. -/
def twoDigits : List Char → Option (Nat × List Char)
  | a :: b :: rest =>
    match digitVal a, digitVal b with
    | some x, some y => some (10 * x + y, rest)
    | _, _ => none
  | _ => none

/-- Reads the character `c`. -/
def expectChar (c : Char) : List Char → Option (List Char)
  | d :: rest => if d = c then some rest else none
  | [] => none

/-- Leap years of the Gregorian calendar. -/
def isLeap (y : Nat) : Bool :=
  y % 4 == 0 && (y % 100 != 0 || y % 400 == 0)

/-- Number of days of month `m` in year `y`. -/
def daysIn (m y : Nat) : Nat :=
  if m = 2 then (if isLeap y then 29 else 28)
  else if m = 4 ∨ m = 6 ∨ m = 9 ∨ m = 11 then 30
  else 31

/-- Days of year `y` before its month `m`. -/
def daysBeforeMonth (m y : Nat) : Nat :=
  ((List.range (m - 1)).map (fun i => daysIn (i + 1) y)).sum

/-- Days from 1 January of year 1 to the given date. -/
def daysSinceZero (y m d : Nat) : Int :=
  let p : Int := (y : Int) - 1
  365 * p + p / 4 - p / 100 + p / 400 + (daysBeforeMonth m y : Int) + ((d : Int) - 1)

/-- Reads an optional fraction of a second (a period and at least one digit) and gives it in
nanoseconds; digits after the ninth are dropped. -/
def fraction (cs : List Char) : Nat × List Char :=
  match cs with
  | '.' :: d :: rest =>
    if d.isDigit then
      let ds := (d :: rest).takeWhile Char.isDigit
      let nine := (ds ++ List.replicate 9 '0').take 9
      (nine.foldl (fun n c => 10 * n + (c.toNat - 48)) 0, (d :: rest).dropWhile Char.isDigit)
    else (0, cs)
  | _ => (0, cs)

/-- Reads the zone: `Z` (UTC, `none`), or a sign followed by `hh:mm`; the result is the
offset from UTC in minutes. -/
def zoneOffset : List Char → Option (Option Int × List Char)
  | 'Z' :: rest => some (none, rest)
  | s :: rest =>
    if s = '+' ∨ s = '-' then
      match twoDigits rest with
      | none => none
      | some (hh, rest₁) =>
        match expectChar ':' rest₁ with
        | none => none
        | some rest₂ =>
          match twoDigits rest₂ with
          | none => none
          | some (mm, rest₃) =>
            if hh < 24 ∧ mm < 60 then
              let mins : Int := (hh * 60 + mm : Nat)
              some (some (if s = '-' then -mins else mins), rest₃)
            else none
    else none
  | [] => none

/-- Reads two digits and then the character `c`. -/
def twoDigitsThen (c : Char) (cs : List Char) : Option (Nat × List Char) :=
  match twoDigits cs with
  | none => none
  | some (n, r) =>
    match expectChar c r with
    | none => none
    | some r₁ => some (n, r₁)

/-- Reads the date `YYYY-MM-DD` followed by `T`; the result is the number of days from
1 January of year 1. -/
def readDate (cs : List Char) : Option (Int × List Char) :=
  match twoDigits cs with
  | none => none
  | some (y₁, r₁) =>
    match twoDigitsThen '-' r₁ with
    | none => none
    | some (y₂, r₂) =>
      match twoDigitsThen '-' r₂ with
      | none => none
      | some (mo, r₃) =>
        match twoDigitsThen 'T' r₃ with
        | none => none
        | some (d, r₄) =>
          if 1 ≤ mo ∧ mo ≤ 12 ∧ 1 ≤ d ∧ d ≤ daysIn mo (100 * y₁ + y₂) then
            some (daysSinceZero (100 * y₁ + y₂) mo d, r₄)
          else none

/-- Reads the time of day `HH:MM:SS` with its optional fraction; the result is in
nanoseconds. -/
def readClock (cs : List Char) : Option (Nat × List Char) :=
  match twoDigitsThen ':' cs with
  | none => none
  | some (h, r₁) =>
    match twoDigitsThen ':' r₁ with
    | none => none
    | some (mi, r₂) =>
      match twoDigits r₂ with
      | none => none
      | some (sec, r₃) =>
        if h < 24 ∧ mi < 60 ∧ sec < 60 then
          some ((h * 3600 + mi * 60 + sec) * 1000000000 + (fraction r₃).1, (fraction r₃).2)
        else none

/-- The call `time.Parse(time.RFC3339, s)` on the timestamps of RFC 3339
(`YYYY-MM-DDTHH:MM:SS`, an optional fraction, then `Z` or `±HH:MM`, every field in range):
the date and time of day are read in UTC and the offset of the zone is taken off; a `Z`
gives a value in UTC, an offset a value in a zone of that offset.  The library accepts a few
more spellings (a one-digit hour, a comma before the fraction, an offset of 24 hours); the
definitions and general theorems of this file take the parser as an argument, and this
function only instantiates it in examples. -/
def parseRFC3339 (s : String) : Option Time :=
  match readDate s.data with
  | none => none
  | some (days, r₁) =>
    match readClock r₁ with
    | none => none
    | some (ns, r₂) =>
      match zoneOffset r₂ with
      | none => none
      | some (zone, r₃) =>
        if r₃ = [] then
          some ⟨(days * 86400 - zone.getD 0 * 60) * 1000000000 + ns, zone⟩
        else none

/-! ## The CSV reader -/

/-- The Go constant `csvComma`. -/
def csvComma : Char := '|'

/-- Cuts a text at every occurrence of `sep`: `cur` holds the piece being read, in
reverse. -/
def splitChar (sep : Char) (cur : List Char) : List Char → List (List Char)
  | [] => [cur.reverse]
  | c :: cs =>
    if c = sep then cur.reverse :: splitChar sep [] cs else splitChar sep (c :: cur) cs

/-- The check of the number of fields that `csv.Reader` makes with `FieldsPerRecord = 0`:
the first record fixes the number `n`, a later record with another number of fields is
returned together with `ErrFieldCount`. -/
def checkFieldCount (n : Nat) (record : List String) : ReadResult :=
  if record.length = n then ⟨record, none⟩ else ⟨record, some .FieldCount⟩

/-- The results of the successive calls of `Read` on the reader `newCSVReader(r)` for a text
without quote characters and without carriage returns (a text with one of them is outside
this description, `none`): the lines end at `\n`, empty lines are skipped, and the fields of
a line are what stands between the `csvComma`s.  After the results the reader returns
`io.EOF`. -/
def csvReads (text : String) : Option (List ReadResult) :=
  if '"' ∈ text.data ∨ '\r' ∈ text.data then none
  else
    let lines := (splitChar '\n' [] text.data).filter (fun l => decide (l ≠ []))
    let records := lines.map (fun l => (splitChar csvComma [] l).map String.mk)
    match records with
    | [] => some []
    | first :: rest => some (⟨first, none⟩ :: rest.map (checkFieldCount first.length))

/-! ## The order of the timestamps -/

/-- A call that gives the store timestamps in order: an `Add` whose second reading of the
clock is not before the first, an `Update` whose record has no timestamps (both are the zero
value `time.Time{}`) or both (neither is the zero value), in order, a `Delete`, an
`ImportCSV` whose rows have a created_at that is not after their updated_at. -/
def Op.timesOrdered (parseTime : String → Option Time) : Op → Prop
  | .Add _ now₁ now₂ => now₁ ≤ now₂
  | .Update bm _ =>
    (bm.CreatedAt = 0 ∧ bm.UpdatedAt = 0) ∨
    (bm.CreatedAt ≠ 0 ∧ bm.UpdatedAt ≠ 0 ∧ bm.CreatedAt ≤ bm.UpdatedAt)
  | .Delete _ => True
  | .ImportCSV reads =>
    ∀ r ∈ reads, ∀ bm, parseBookmark parseTime r.record = .ok bm → bm.CreatedAt ≤ bm.UpdatedAt

/-! ## The HTTP handler -/

/-- A call the handler makes on its `http.ResponseWriter`: `http.Error(w, msg, code)`, which
calls `WriteHeader(code)` and writes the message, or `w.Write(data)`. -/
inductive WCall where
  | Error (code : Nat)
  | Write
deriving DecidableEq, Repr

/-- The status code of the response: that of the first `WriteHeader`; a `Write` that comes
first, or a handler that returns without a call, gives `http.StatusOK`. -/
def status : List WCall → Nat
  | [] => 200
  | .Error code :: _ => code
  | .Write :: _ => 200

/-- The Go interface `Storager` as one request sees it: the result of each call (`ListAll` is
the method `List`, a name the structure cannot use next to the type of lists; `ImportCSV` is
not called by the handler). -/
structure Storager where
  Add : NewBookmark → Except Err Bookmark
  Update : Bookmark → Except Err Bookmark
  Delete : Int → Option Err
  Get : Int → Except Err Bookmark
  ListAll : Except Err (List BookmarkSummary)

/-- What the handler gets out of the body of the request: `ioutil.ReadAll` fails,
`json.Unmarshal` fails, or the decoded value. -/
inductive Body (α : Type) where
  | ReadError
  | UnmarshalError
  | Value (a : α)
deriving DecidableEq, Repr

/-- The test `errors.As(err, &ve)` with `ve` of type `validator.ValidationErrors`. -/
def isValidationErrors : Err → Bool
  | .Validation _ => true
  | _ => false

/-- The end of the handlers that answer with a value: `json.Marshal` and `w.Write`, each
followed by `http.Error` with `StatusInternalServerError` when it fails. -/
def writeJSON (marshalFails writeFails : Bool) : List WCall :=
  if marshalFails then [.Error 500]
  else if writeFails then [.Write, .Error 500]
  else [.Write]

/-- The Go method `bookmarkHandler.createBookmarkHandler`.  After `http.Error` with
`StatusBadRequest` for a validation error the function does not return, so the call with
`StatusInternalServerError` follows. -/
def createBookmarkHandler (repo : Storager) (body : Body NewBookmark)
    (marshalFails writeFails : Bool) : List WCall :=
  match body with
  | .ReadError => [.Error 400]
  | .UnmarshalError => [.Error 400]
  | .Value nbm =>
    match repo.Add nbm with
    | .error e => (if isValidationErrors e then [.Error 400] else []) ++ [.Error 500]
    | .ok _ => writeJSON marshalFails writeFails

/-- The Go method `bookmarkHandler.updateBookmarkHandler`. -/
def updateBookmarkHandler (repo : Storager) (body : Body Bookmark) (id : Int)
    (marshalFails writeFails : Bool) : List WCall :=
  match body with
  | .ReadError => [.Error 400]
  | .UnmarshalError => [.Error 400]
  | .Value bm =>
    match repo.Update { bm with ID := id } with
    | .error e =>
      if e = .ErrNotFound then [.Error 404]
      else (if isValidationErrors e then [.Error 400] else []) ++ [.Error 500]
    | .ok _ => writeJSON marshalFails writeFails

/-- The Go method `bookmarkHandler.deleteBookmarkHandler`. -/
def deleteBookmarkHandler (repo : Storager) (id : Int) : List WCall :=
  match repo.Delete id with
  | some e => if e = .ErrNotFound then [.Error 404] else [.Error 500]
  | none => []

/-- The Go method `bookmarkHandler.getBookmarkHandler`. -/
def getBookmarkHandler (repo : Storager) (id : Int) (marshalFails writeFails : Bool) :
    List WCall :=
  match repo.Get id with
  | .error e => if e = .ErrNotFound then [.Error 404] else [.Error 500]
  | .ok _ => writeJSON marshalFails writeFails

/-- The Go method `bookmarkHandler.listBookmarkHandler`. -/
def listBookmarkHandler (repo : Storager) (marshalFails writeFails : Bool) : List WCall :=
  match repo.ListAll with
  | .error _ => [.Error 500]
  | .ok _ => writeJSON marshalFails writeFails

/-- The repository `*Store` on the database state `db` as a `Storager`; `now₁` and `now₂`
are the readings of the clock. -/
def storeOf (db : DB) (now₁ now₂ : Time) : Storager where
  Add := fun nbm => (Store.Add db now₁ now₂ nbm).1
  Update := fun bm => (Store.Update db bm []).1
  Delete := fun id => (Store.Delete db id).1
  Get := fun id => Store.Get db id
  ListAll := Store.List db

/-! ## The routing of the requests -/

/-- One step of `path.Clean` on a rooted path, for the element `comp` between two slashes:
an empty element and `.` are dropped, `..` takes the last element away (none at the root),
another element is added. -/
def cleanStep (stack : List (List Char)) (comp : List Char) : List (List Char) :=
  if comp = [] ∨ comp = ['.'] then stack
  else if comp = ['.', '.'] then stack.dropLast
  else stack ++ [comp]

/-- The elements of the cleaned path. -/
def cleanElems (p : List Char) : List (List Char) :=
  (splitChar '/' [] p).foldl cleanStep []

/-- The call `path.Clean(p)` for a path `p` that starts with a slash: the root, or a slash
and an element for every element that is left. -/
def cleanRooted (p : List Char) : List Char :=
  if cleanElems p = [] then ['/'] else ((cleanElems p).map (fun c => '/' :: c)).flatten

/-- An element of a cleaned path: not empty and without a slash. -/
def IsElem (e : List Char) : Prop := e ≠ [] ∧ '/' ∉ e

/-- The call `strings.Index(s, "/")`: the place of the first slash, `-1` without one. -/
def indexSlash : List Char → Int
  | [] => -1
  | c :: cs => if c = '/' then 0 else if indexSlash cs < 0 then -1 else indexSlash cs + 1

/-- The Go function `ShiftPath`; `p[1:]`, `p[1:i]` and `p[i:]` are written with `drop` and
`take`. -/
def ShiftPath (p : String) : String × String :=
  let c := cleanRooted ('/' :: p.data)
  let i := indexSlash (c.drop 1) + 1
  if i ≤ 0 then (String.mk (c.drop 1), "/")
  else (String.mk ((c.take i.toNat).drop 1), String.mk (c.drop i.toNat))

/-- The call `strconv.Atoi(s)`: an optional sign and at least one decimal digit (numerals
that do not fit the type `int` are outside this description). -/
def atoi (s : String) : Option Int :=
  let digits (cs : List Char) : Option Nat :=
    if cs ≠ [] ∧ cs.all Char.isDigit = true then
      some (cs.foldl (fun n c => 10 * n + (c.toNat - 48)) 0)
    else none
  match s.data with
  | '-' :: cs => (digits cs).map (fun n => -(n : Int))
  | '+' :: cs => (digits cs).map (fun n => (n : Int))
  | cs => (digits cs).map (fun n => (n : Int))

/-- The call `strconv.Itoa(i)`. -/
def itoa (i : Int) : String :=
  if i < 0 then "-" ++ Nat.repr i.natAbs else Nat.repr i.natAbs

/-- The methods of a request the handler tells apart. -/
inductive Method where
  | GET
  | POST
  | DELETE
  | Other
deriving DecidableEq, Repr

/-- A request as the handler reads it: method, path, and what comes out of the body when it
is decoded as a `NewBookmark` and as a `Bookmark`. -/
structure Request where
  method : Method
  path : String
  newBookmark : Body NewBookmark
  bookmark : Body Bookmark

/-- The Go function `BookmarkHandler`. -/
def BookmarkHandler (repo : Storager) (r : Request) (marshalFails writeFails : Bool) :
    List WCall :=
  if r.path = "/" then
    match r.method with
    | .GET => listBookmarkHandler repo marshalFails writeFails
    | .POST => createBookmarkHandler repo r.newBookmark marshalFails writeFails
    | _ => []
  else
    match atoi (ShiftPath r.path).1 with
    | none => [.Error 400]
    | some id =>
      match r.method with
      | .GET => getBookmarkHandler repo id marshalFails writeFails
      | .DELETE => deleteBookmarkHandler repo id
      | .POST => updateBookmarkHandler repo r.bookmark id marshalFails writeFails
      | .Other => []

/-- The Go function `Handler`. -/
def Handler (repo : Storager) (r : Request) (marshalFails writeFails : Bool) : List WCall :=
  if (ShiftPath r.path).1 = "bookmark" then
    BookmarkHandler repo { r with path := (ShiftPath r.path).2 } marshalFails writeFails
  else [.Error 404]

/-! ## The command line -/

/-- The record the Go function `updateHandler` of package `cli` hands to `client.Update`, for
the argument `arg` and the values of the flags `title`, `tags` and `note`.  No field of the
literal is the `ID`. -/
def updateHandlerRecord (arg title tags note : String) : Bookmark :=
  { ID := 0
    Title := title
    URL := arg
    Tags := some (splitSemi [] tags.data)
    Notes := note
    Document := "."
    CreatedAt := 0
    UpdatedAt := 0 }

/-- The request the Go method `Client.Update` posts for the record `bm`, the client being
the one of `NewApp` (base `http://127.0.0.1:8080/bookmark`): the path is
`path.Join("/bookmark", strconv.Itoa(bm.ID))`, the body the JSON text of `bm`. -/
def clientUpdateRequest (bm : Bookmark) : Request :=
  { method := .POST
    path := "/bookmark/" ++ itoa bm.ID
    newBookmark := .Value ⟨bm.Title, bm.URL, bm.Tags, bm.Notes⟩
    bookmark := .Value bm }

/-! ## Lemmas on the database -/

theorem summary_foldl (l : List Bookmark) (acc : List BookmarkSummary) :
    l.foldl (fun bs bm => bs ++ [summary bm]) acc = acc ++ l.map summary := by
  induction l generalizing acc with
  | nil => simp
  | cons r rs ih => simp [ih]

theorem mem_put {bm x : Bookmark} {l : List Bookmark} (h : x ∈ put bm l) : x = bm ∨ x ∈ l := by
  induction l with
  | nil => simp [put] at h; exact Or.inl h
  | cons r rs ih =>
    unfold put at h
    split_ifs at h with h1 h2
    · simp at h; rcases h with h | h
      · exact Or.inl h
      · exact Or.inr (by simp [h])
    · simp at h; rcases h with h | h | h
      · exact Or.inl h
      · exact Or.inr (by simp [h])
      · exact Or.inr (by simp [h])
    · simp at h; rcases h with h | h
      · exact Or.inr (by simp [h])
      · rcases ih h with h | h
        · exact Or.inl h
        · exact Or.inr (by simp [h])

theorem find_put_self (bm : Bookmark) (l : List Bookmark) :
    (put bm l).find? (fun r => decide (r.ID = bm.ID)) = some bm := by
  induction l with
  | nil => simp [put]
  | cons r rs ih =>
    unfold put
    split_ifs with h1 h2
    · simp
    · simp
    · simp [List.find?_cons, h1, ih]

theorem find_put_other (bm : Bookmark) (l : List Bookmark) (j : Int) (hj : j ≠ bm.ID) :
    (put bm l).find? (fun r => decide (r.ID = j)) = l.find? (fun r => decide (r.ID = j)) := by
  have hb : ¬ bm.ID = j := fun h => hj h.symm
  induction l with
  | nil => simp [put, hb]
  | cons r rs ih =>
    unfold put
    split_ifs with h1 h2
    · have : ¬ r.ID = j := by rw [h1]; exact hb
      simp [List.find?_cons, hb, this]
    · simp [List.find?_cons, hb]
    · by_cases h3 : r.ID = j <;> simp [List.find?_cons, h3, ih]

/-- On a bucket in key order, `put` keeps exactly the records stored under other keys. -/
theorem mem_put_of_sorted {bm x : Bookmark} {l : List Bookmark}
    (hs : l.Pairwise (fun a b => a.ID < b.ID)) (h : x ∈ put bm l) :
    x = bm ∨ (x ∈ l ∧ x.ID ≠ bm.ID) := by
  induction l with
  | nil => simp [put] at h; exact Or.inl h
  | cons r rs ih =>
    rw [List.pairwise_cons] at hs
    unfold put at h
    split_ifs at h with h1 h2
    · simp at h; rcases h with h | h
      · exact Or.inl h
      · refine Or.inr ⟨by simp [h], ?_⟩
        have := hs.1 x h
        omega
    · simp at h; rcases h with h | h | h
      · exact Or.inl h
      · exact Or.inr ⟨by simp [h], by rw [h]; exact h1⟩
      · refine Or.inr ⟨by simp [h], ?_⟩
        have := hs.1 x h
        omega
    · simp at h; rcases h with h | h
      · exact Or.inr ⟨by simp [h], by rw [h]; exact h1⟩
      · rcases ih hs.2 h with h | h
        · exact Or.inl h
        · exact Or.inr ⟨by simp [h.1], h.2⟩

theorem put_sorted {bm : Bookmark} {l : List Bookmark}
    (hs : l.Pairwise (fun a b => a.ID < b.ID)) :
    (put bm l).Pairwise (fun a b => a.ID < b.ID) := by
  induction l with
  | nil => simp [put]
  | cons r rs ih =>
    have hs' := hs
    rw [List.pairwise_cons] at hs
    unfold put
    split_ifs with h1 h2
    · rw [List.pairwise_cons]
      exact ⟨fun x hx => by rw [← h1]; exact hs.1 x hx, hs.2⟩
    · rw [List.pairwise_cons]
      refine ⟨fun x hx => ?_, hs'⟩
      simp at hx
      rcases hx with hx | hx
      · rw [hx]; exact h2
      · have := hs.1 x hx
        omega
    · rw [List.pairwise_cons]
      refine ⟨fun x hx => ?_, ih hs.2⟩
      rcases mem_put hx with hx | hx
      · rw [hx]; omega
      · exact hs.1 x hx

theorem taken_false_iff (db : DB) (f : Bookmark → String) (id : Int) (v : String) :
    ¬ (db.taken f id v = true) ↔ ∀ r ∈ db.bucket, r.ID ≠ id → f r ≠ v := by
  simp [DB.taken]

/-! ## What the calls do to the state -/

theorem Save_zero {db db' : DB} {bm saved : Bookmark} (hz : bm.ID = 0)
    (h : db.Save bm = .ok (saved, db')) :
    saved = { bm with ID := db.counter + 1 } ∧
    db' = ⟨put saved db.bucket, db.counter + 1⟩ ∧
    (bm.Title ≠ "" → ∀ r ∈ db.bucket, r.ID ≠ db.counter + 1 → r.Title ≠ bm.Title) ∧
    (bm.URL ≠ "" → ∀ r ∈ db.bucket, r.ID ≠ db.counter + 1 → r.URL ≠ bm.URL) := by
  unfold DB.Save at h
  simp only [hz, if_true] at h
  split_ifs at h with h1 h2
  simp only [Except.ok.injEq, Prod.mk.injEq] at h
  refine ⟨h.1.symm, ?_, ?_, ?_⟩
  · rw [← h.2, ← h.1]
  · intro ht
    exact (taken_false_iff db Bookmark.Title _ _).1 (fun hc => h1 ⟨ht, hc⟩)
  · intro hu
    exact (taken_false_iff db Bookmark.URL _ _).1 (fun hc => h2 ⟨hu, hc⟩)

theorem Save_error {db : DB} {bm : Bookmark} {e : Err} (h : db.Save bm = .error e) :
    e = .AlreadyExists ∨ e = .Marshal := by
  unfold DB.Save at h
  dsimp only at h
  split_ifs at h
  all_goals first
    | (injection h with h; exact Or.inl h.symm)
    | (injection h with h; exact Or.inr h.symm)

theorem nowUTC_marshals (now : Time) : (nowUTC now).marshals = true := by
  simp only [nowUTC, Time.marshals, Option.getD_none, yearZero, yearTenThousand,
    decide_eq_true_eq]
  omega

theorem nowUTC_le {a b : Time} (h : a ≤ b) : nowUTC a ≤ nowUTC b := by
  have h' : a.instant ≤ b.instant := h
  show max yearZero (min a.instant (yearTenThousand - 1)) ≤
    max yearZero (min b.instant (yearTenThousand - 1))
  omega

theorem validateNewBookmark_nil {nbm : NewBookmark} :
    validateNewBookmark nbm = [] ↔ nbm.Title ≠ "" ∧ nbm.URL ≠ "" := by
  unfold validateNewBookmark
  by_cases h1 : nbm.Title = "" <;> by_cases h2 : nbm.URL = "" <;> simp [h1, h2]

theorem validateBookmark_nil {bm : Bookmark} :
    validateBookmark bm = [] ↔ bm.ID ≠ 0 ∧ bm.Title ≠ "" ∧ bm.URL ≠ "" := by
  unfold validateBookmark
  by_cases h0 : bm.ID = 0 <;> by_cases h1 : bm.Title = "" <;> by_cases h2 : bm.URL = "" <;>
    simp [h0, h1, h2]

theorem Add_eq_of_valid {nbm : NewBookmark} (db : DB) (now₁ now₂ : Time)
    (hv : validateNewBookmark nbm = []) :
    Store.Add db now₁ now₂ nbm =
      match db.Save (newRecord now₁ now₂ nbm) with
      | .error e => (.error e, db)
      | .ok (saved, db') => (.ok saved, db') := by
  unfold Store.Add
  rw [hv]
  rfl

theorem Add_ok {db db' : DB} {now₁ now₂ : Time} {nbm : NewBookmark} {b : Bookmark}
    (h : Store.Add db now₁ now₂ nbm = (.ok b, db')) :
    nbm.Title ≠ "" ∧ nbm.URL ≠ "" ∧
    b = { newRecord now₁ now₂ nbm with ID := db.counter + 1 } ∧
    db' = ⟨put b db.bucket, db.counter + 1⟩ ∧
    (∀ r ∈ db.bucket, r.ID ≠ db.counter + 1 → r.Title ≠ nbm.Title) ∧
    (∀ r ∈ db.bucket, r.ID ≠ db.counter + 1 → r.URL ≠ nbm.URL) := by
  cases hv : validateNewBookmark nbm with
  | cons f fs => simp [Store.Add, hv] at h
  | nil =>
    have hne := validateNewBookmark_nil.1 hv
    rw [Add_eq_of_valid db now₁ now₂ hv] at h
    cases hs : db.Save (newRecord now₁ now₂ nbm) with
    | error e => simp [hs] at h
    | ok p =>
      obtain ⟨saved, d⟩ := p
      simp only [hs, Prod.mk.injEq, Except.ok.injEq] at h
      have hz : (newRecord now₁ now₂ nbm).ID = 0 := rfl
      obtain ⟨h1, h2, h3, h4⟩ := Save_zero hz hs
      rw [h.1] at h1 h2
      rw [h.2] at h2
      exact ⟨hne.1, hne.2, h1, h2, h3 hne.1, h4 hne.2⟩

theorem Add_error {db db' : DB} {now₁ now₂ : Time} {nbm : NewBookmark} {e : Err}
    (h : Store.Add db now₁ now₂ nbm = (.error e, db')) : db' = db := by
  cases hv : validateNewBookmark nbm with
  | cons f fs => simp [Store.Add, hv] at h; exact h.2.symm
  | nil =>
    rw [Add_eq_of_valid db now₁ now₂ hv] at h
    cases hs : db.Save (newRecord now₁ now₂ nbm) with
    | error e => simp [hs] at h; exact h.2.symm
    | ok p => simp [hs] at h

theorem OneID_ok {db : DB} {id : Int} {r : Bookmark} (h : db.OneID id = .ok r) :
    r ∈ db.bucket ∧ r.ID = id ∧ db.bucket.find? (fun r => decide (r.ID = id)) = some r := by
  unfold DB.OneID at h
  cases hf : db.bucket.find? (fun r => decide (r.ID = id)) with
  | none => simp [hf] at h
  | some x =>
    simp [hf] at h
    subst h
    exact ⟨List.mem_of_find?_eq_some hf, by simpa using List.find?_some hf, rfl⟩

theorem OneID_of_not_live {db : DB} {id : Int} (h : ∀ r ∈ db.bucket, r.ID ≠ id) :
    db.OneID id = .error .StormNotFound := by
  unfold DB.OneID
  have : db.bucket.find? (fun r => decide (r.ID = id)) = none := by simpa using h
  rw [this]

/-- The state `Store.Update` leaves: its second component, whatever the result. -/
theorem Update_ok {db db' : DB} {bm b : Bookmark} {onlyFields : List String}
    (h : Store.Update db bm onlyFields = (.ok b, db')) :
    onlyFields = [] ∧ b = bm ∧ bm.ID ≠ 0 ∧ bm.Title ≠ "" ∧ bm.URL ≠ "" ∧
    ∃ cur, db.OneID bm.ID = .ok cur ∧
      db' = ⟨put (merge cur bm) db.bucket, db.counter⟩ ∧
      (∀ r ∈ db.bucket, r.ID ≠ bm.ID → r.Title ≠ bm.Title) ∧
      (∀ r ∈ db.bucket, r.ID ≠ bm.ID → r.URL ≠ bm.URL) := by
  unfold Store.Update at h
  split_ifs at h with h0
  · simp at h
  have hof : onlyFields = [] := by simpa using h0
  cases hv : validateBookmark bm with
  | cons f fs => simp [hv] at h
  | nil =>
    obtain ⟨v0, v1, v2⟩ := validateBookmark_nil.1 hv
    simp only [hv] at h
    cases hu : db.Update bm with
    | error e =>
      simp only [hu] at h
      split_ifs at h <;> simp at h
    | ok d =>
      simp only [hu, Prod.mk.injEq, Except.ok.injEq] at h
      unfold DB.Update at hu
      simp only [v0, if_false] at hu
      cases ho : db.OneID bm.ID with
      | error e => simp [ho] at hu
      | ok cur =>
        simp only [ho] at hu
        split_ifs at hu with h1 h2
        simp only [Except.ok.injEq] at hu
        refine ⟨hof, h.1.symm, v0, v1, v2, cur, rfl, ?_, ?_, ?_⟩
        · rw [← h.2, ← hu]
        · exact (taken_false_iff db Bookmark.Title _ _).1 (fun hc => h1 ⟨v1, hc⟩)
        · exact (taken_false_iff db Bookmark.URL _ _).1 (fun hc => h2 ⟨v2, hc⟩)

theorem Update_error {db db' : DB} {bm : Bookmark} {onlyFields : List String} {e : Err}
    (h : Store.Update db bm onlyFields = (.error e, db')) : db' = db := by
  unfold Store.Update at h
  split_ifs at h with h0
  · simp at h; exact h.2.symm
  · cases hv : validateBookmark bm with
    | cons f fs => simp [hv] at h; exact h.2.symm
    | nil =>
      simp only [hv] at h
      cases hu : db.Update bm with
      | error e =>
        simp only [hu] at h
        split_ifs at h <;> simp at h <;> exact h.2.symm
      | ok d => simp [hu] at h

theorem Delete_snd (db : DB) (id : Int) :
    (Store.Delete db id).2 = db ∨
    (Store.Delete db id).2 = ⟨db.bucket.filter (fun r => decide (r.ID ≠ id)), db.counter⟩ := by
  unfold Store.Delete DB.DeleteStruct
  split_ifs with h
  · exact Or.inr rfl
  · exact Or.inl rfl

/-! ## The invariant -/

theorem WF_empty : WF DB.empty := by decide

theorem uniq_put (f : Bookmark → String) {m : Bookmark} {l : List Bookmark}
    (hs : l.Pairwise (fun a b => a.ID < b.ID))
    (hu : ∀ a ∈ l, ∀ b ∈ l, f a = f b → f a ≠ "" → a.ID = b.ID)
    (hm : f m ≠ "" → ∀ r ∈ l, r.ID ≠ m.ID → f r ≠ f m) :
    ∀ a ∈ put m l, ∀ b ∈ put m l, f a = f b → f a ≠ "" → a.ID = b.ID := by
  intro a ha b hb hab hne
  rcases mem_put_of_sorted hs ha with ha | ha <;> rcases mem_put_of_sorted hs hb with hb | hb
  · rw [ha, hb]
  · subst ha
    exact absurd hab.symm (hm hne b hb.1 hb.2)
  · subst hb
    exact absurd hab (hm (hab ▸ hne) a ha.1 ha.2)
  · exact hu a ha.1 b hb.1 hab hne

theorem WF_put {l : List Bookmark} {c c' : Int} {m : Bookmark} (h : WF ⟨l, c⟩)
    (h0 : 0 < m.ID) (h1 : m.ID ≤ c') (hc : c ≤ c')
    (ht : m.Title ≠ "" → ∀ r ∈ l, r.ID ≠ m.ID → r.Title ≠ m.Title)
    (hu : m.URL ≠ "" → ∀ r ∈ l, r.ID ≠ m.ID → r.URL ≠ m.URL) :
    WF ⟨put m l, c'⟩ := by
  obtain ⟨hs, hz, hb, hT, hU⟩ := h
  refine ⟨put_sorted hs, le_trans hz hc, ?_, uniq_put Bookmark.Title hs hT ht,
    uniq_put Bookmark.URL hs hU hu⟩
  intro r hr
  rcases mem_put hr with hr | hr
  · rw [hr]; exact ⟨h0, h1⟩
  · exact ⟨(hb r hr).1, le_trans (hb r hr).2 hc⟩

theorem WF_Save_zero {db db' : DB} {bm saved : Bookmark} (hw : WF db) (hz : bm.ID = 0)
    (h : db.Save bm = .ok (saved, db')) : WF db' := by
  obtain ⟨h1, h2, h3, h4⟩ := Save_zero hz h
  have hc : 0 ≤ db.counter := hw.2.1
  rw [h2]
  have hid : saved.ID = db.counter + 1 := by rw [h1]
  have hT : saved.Title = bm.Title := by rw [h1]
  have hU : saved.URL = bm.URL := by rw [h1]
  refine WF_put (c := db.counter) hw (by omega) (by omega) (by omega) ?_ ?_
  · intro hne r hr hri
    rw [hT] at hne ⊢
    rw [hid] at hri
    exact h3 hne r hr hri
  · intro hne r hr hri
    rw [hU] at hne ⊢
    rw [hid] at hri
    exact h4 hne r hr hri

theorem WF_Add {db : DB} (hw : WF db) (now₁ now₂ : Time) (nbm : NewBookmark) :
    WF (Store.Add db now₁ now₂ nbm).2 := by
  cases hv : validateNewBookmark nbm with
  | cons f fs => simpa [Store.Add, hv] using hw
  | nil =>
    rw [Add_eq_of_valid db now₁ now₂ hv]
    cases hs : db.Save (newRecord now₁ now₂ nbm) with
    | error e => exact hw
    | ok p => exact WF_Save_zero hw rfl hs

theorem merge_ID {cur bm : Bookmark} (h : bm.ID ≠ 0) : (merge cur bm).ID = bm.ID := by
  simp [merge, h]

theorem merge_Title {cur bm : Bookmark} (h : bm.Title ≠ "") :
    (merge cur bm).Title = bm.Title := by
  simp [merge, h]

theorem merge_URL {cur bm : Bookmark} (h : bm.URL ≠ "") : (merge cur bm).URL = bm.URL := by
  simp [merge, h]

theorem WF_Update {db : DB} (hw : WF db) (bm : Bookmark) (onlyFields : List String) :
    WF (Store.Update db bm onlyFields).2 := by
  cases hr : Store.Update db bm onlyFields with
  | mk res db' =>
    cases res with
    | error e => rw [Update_error hr]; exact hw
    | ok b =>
      obtain ⟨-, -, v0, v1, v2, cur, hcur, hdb, hT, hU⟩ := Update_ok hr
      obtain ⟨hmem, hid, -⟩ := OneID_ok hcur
      have hb := hw.2.2.1 cur hmem
      show WF db'
      rw [hdb]
      refine WF_put (c := db.counter) hw ?_ ?_ le_rfl ?_ ?_
      · rw [merge_ID v0, ← hid]; exact hb.1
      · rw [merge_ID v0, ← hid]; exact hb.2
      · intro _ r hr hri
        rw [merge_ID v0] at hri
        rw [merge_Title v1]
        exact hT r hr hri
      · intro _ r hr hri
        rw [merge_ID v0] at hri
        rw [merge_URL v2]
        exact hU r hr hri

theorem WF_filter {db : DB} (hw : WF db) (p : Bookmark → Bool) :
    WF ⟨db.bucket.filter p, db.counter⟩ := by
  obtain ⟨hs, hz, hb, hT, hU⟩ := hw
  refine ⟨hs.sublist (List.filter_sublist _), hz, ?_, ?_, ?_⟩
  · intro r hr
    exact hb r (List.mem_of_mem_filter hr)
  · intro a ha b hb'
    exact hT a (List.mem_of_mem_filter ha) b (List.mem_of_mem_filter hb')
  · intro a ha b hb'
    exact hU a (List.mem_of_mem_filter ha) b (List.mem_of_mem_filter hb')

theorem WF_Delete {db : DB} (hw : WF db) (id : Int) : WF (Store.Delete db id).2 := by
  rcases Delete_snd db id with h | h
  · rw [h]; exact hw
  · rw [h]; exact WF_filter hw _

theorem parseBookmark_ID {parseTime : String → Option Time} {data : List String}
    {bm : Bookmark} (h : parseBookmark parseTime data = .ok bm) : bm.ID = 0 := by
  unfold parseBookmark at h
  split at h <;> try cases h
  split at h <;> try cases h
  split at h <;> try cases h
  split at h <;> try cases h
  split at h <;> try cases h
  split at h <;> try cases h
  rfl

theorem WF_importRows (parseTime : String → Option Time) (reads : List ReadResult) :
    ∀ db : DB, WF db → WF (importRows parseTime db reads).2 := by
  induction reads with
  | nil => intro db hw; exact hw
  | cons r rest ih =>
    intro db hw
    unfold importRows
    split_ifs with he
    · exact hw
    · cases hp : parseBookmark parseTime r.record with
      | panic => exact hw
      | err e => exact hw
      | ok bm =>
        dsimp only
        cases hs : db.Save bm with
        | error e => exact hw
        | ok p => exact ih p.2 (WF_Save_zero hw (parseBookmark_ID hp) hs)

theorem WF_ImportCSV {db : DB} (hw : WF db) (parseTime : String → Option Time)
    (reads : List ReadResult) : WF (Store.ImportCSV parseTime db reads).2 := by
  unfold Store.ImportCSV
  cases reads with
  | nil => exact hw
  | cons h rest =>
    cases he : h.err with
    | some e => simpa [he] using hw
    | none =>
      cases hv : validateCSVHeader h.record with
      | none => simpa [he, hv] using hw
      | some b =>
        cases b with
        | false => simpa [he, hv] using hw
        | true => simpa [he, hv] using WF_importRows parseTime rest db hw

theorem WF_exec {db : DB} (hw : WF db) (parseTime : String → Option Time) (op : Op) :
    WF (op.exec parseTime db) := by
  cases op with
  | Add nbm now₁ now₂ => exact WF_Add hw now₁ now₂ nbm
  | Update bm onlyFields => exact WF_Update hw bm onlyFields
  | Delete id => exact WF_Delete hw id
  | ImportCSV reads => exact WF_ImportCSV hw parseTime reads

/-- Every state the calls can reach from a state with the invariant has the invariant. -/
theorem WF_run (parseTime : String → Option Time) (ops : List Op) :
    ∀ db : DB, WF db → WF (run parseTime db ops) := by
  induction ops with
  | nil => intro db hw; exact hw
  | cons op ops ih =>
    intro db hw
    exact ih _ (WF_exec hw parseTime op)

/-! ## The counter -/

theorem counter_Add (db : DB) (now₁ now₂ : Time) (nbm : NewBookmark) :
    db.counter ≤ (Store.Add db now₁ now₂ nbm).2.counter := by
  cases hr : Store.Add db now₁ now₂ nbm with
  | mk res db' =>
    cases res with
    | error e => rw [Add_error hr]
    | ok b =>
      obtain ⟨-, -, -, h, -, -⟩ := Add_ok hr
      show db.counter ≤ db'.counter
      rw [h]
      show db.counter ≤ db.counter + 1
      omega

theorem counter_Update (db : DB) (bm : Bookmark) (onlyFields : List String) :
    db.counter ≤ (Store.Update db bm onlyFields).2.counter := by
  cases hr : Store.Update db bm onlyFields with
  | mk res db' =>
    cases res with
    | error e => rw [Update_error hr]
    | ok b =>
      obtain ⟨-, -, -, -, -, cur, -, h, -, -⟩ := Update_ok hr
      show db.counter ≤ db'.counter
      rw [h]

theorem counter_Delete (db : DB) (id : Int) : db.counter ≤ (Store.Delete db id).2.counter := by
  rcases Delete_snd db id with h | h <;> rw [h]

theorem counter_importRows (parseTime : String → Option Time) (reads : List ReadResult) :
    ∀ db : DB, db.counter ≤ (importRows parseTime db reads).2.counter := by
  induction reads with
  | nil => intro db; exact le_rfl
  | cons r rest ih =>
    intro db
    unfold importRows
    split_ifs with he
    · exact le_rfl
    · cases hp : parseBookmark parseTime r.record with
      | panic => exact le_rfl
      | err e => exact le_rfl
      | ok bm =>
        dsimp only
        cases hs : db.Save bm with
        | error e => exact le_rfl
        | ok p =>
          obtain ⟨saved, d⟩ := p
          obtain ⟨-, h, -, -⟩ := Save_zero (parseBookmark_ID hp) hs
          have h1 : db.counter ≤ d.counter := by rw [h]; show db.counter ≤ db.counter + 1; omega
          exact le_trans h1 (ih d)

theorem counter_ImportCSV (parseTime : String → Option Time) (db : DB)
    (reads : List ReadResult) : db.counter ≤ (Store.ImportCSV parseTime db reads).2.counter := by
  unfold Store.ImportCSV
  cases reads with
  | nil => exact le_rfl
  | cons h rest =>
    cases he : h.err with
    | some e => simp [he]
    | none =>
      cases hv : validateCSVHeader h.record with
      | none => simp [he, hv]
      | some b =>
        cases b with
        | false => simp [he, hv]
        | true => simpa [he, hv] using counter_importRows parseTime rest db

theorem counter_exec (parseTime : String → Option Time) (db : DB) (op : Op) :
    db.counter ≤ (op.exec parseTime db).counter := by
  cases op with
  | Add nbm now₁ now₂ => exact counter_Add db now₁ now₂ nbm
  | Update bm onlyFields => exact counter_Update db bm onlyFields
  | Delete id => exact counter_Delete db id
  | ImportCSV reads => exact counter_ImportCSV parseTime db reads

theorem counter_run (parseTime : String → Option Time) (ops : List Op) :
    ∀ db : DB, db.counter ≤ (run parseTime db ops).counter := by
  induction ops with
  | nil => intro db; exact le_rfl
  | cons op ops ih =>
    intro db
    exact le_trans (counter_exec parseTime db op) (ih _)

theorem run_append (parseTime : String → Option Time) (db : DB) (pre mid : List Op) :
    run parseTime db (pre ++ mid) = run parseTime (run parseTime db pre) mid := by
  simp [run, List.foldl_append]

theorem addId_some {db : DB} {op : Op} {id : Int} (parseTime : String → Option Time)
    (h : op.addId db = some id) :
    id = db.counter + 1 ∧ (op.exec parseTime db).counter = db.counter + 1 := by
  cases op with
  | Add nbm now₁ now₂ =>
    cases hr : Store.Add db now₁ now₂ nbm with
    | mk res db' =>
      cases res with
      | error e => simp [Op.addId, hr] at h
      | ok b =>
        obtain ⟨-, -, hb, hd, -, -⟩ := Add_ok hr
        simp only [Op.addId, hr, Option.some.injEq] at h
        refine ⟨?_, ?_⟩
        · rw [← h, hb]
        · show (Store.Add db now₁ now₂ nbm).2.counter = db.counter + 1
          rw [hr, hd]
  | Update bm onlyFields => simp [Op.addId] at h
  | Delete id => simp [Op.addId] at h
  | ImportCSV reads => simp [Op.addId] at h

theorem addIds_increasing (parseTime : String → Option Time) (ops : List Op) :
    ∀ db : DB, (∀ i ∈ addIds parseTime db ops, db.counter < i) ∧
      (addIds parseTime db ops).Pairwise (fun i j => i < j) := by
  induction ops with
  | nil => intro db; simp [addIds]
  | cons op ops ih =>
    intro db
    obtain ⟨h1, h2⟩ := ih (op.exec parseTime db)
    have hc := counter_exec parseTime db op
    unfold addIds
    cases ha : op.addId db with
    | none =>
      refine ⟨fun i hi => lt_of_le_of_lt hc (h1 i hi), h2⟩
    | some id =>
      obtain ⟨e1, e2⟩ := addId_some parseTime ha
      refine ⟨?_, ?_⟩
      · intro i hi
        simp only [List.mem_cons] at hi
        rcases hi with hi | hi
        · omega
        · exact lt_of_le_of_lt hc (h1 i hi)
      · rw [List.pairwise_cons]
        refine ⟨fun j hj => ?_, h2⟩
        have := h1 j hj
        omega

theorem find_URL_put {b : Bookmark} {l : List Bookmark} {u : String} (hb : b.URL = u)
    (h : ∀ r ∈ l, r.URL ≠ u) : (put b l).find? (fun r => decide (r.URL = u)) = some b := by
  induction l with
  | nil => simp [put, hb]
  | cons r rs ih =>
    have hr : ¬ r.URL = u := h r (by simp)
    unfold put
    split_ifs with h1 h2
    · simp [hb]
    · simp [hb]
    · simp [List.find?_cons, hr, ih (fun x hx => h x (by simp [hx]))]

theorem Get_eq (db : DB) (id : Int) :
    Store.Get db id =
      match db.bucket.find? (fun r => decide (r.ID = id)) with
      | some r => .ok r
      | none => .error .ErrNotFound := by
  unfold Store.Get DB.OneID
  cases db.bucket.find? (fun r => decide (r.ID = id)) <;> simp

theorem Add_succeeds {db : DB} (now₁ now₂ : Time) {nbm : NewBookmark}
    (ht : nbm.Title ≠ "") (hu : nbm.URL ≠ "")
    (hT : ∀ r ∈ db.bucket, r.ID ≠ db.counter + 1 → r.Title ≠ nbm.Title)
    (hU : ∀ r ∈ db.bucket, r.ID ≠ db.counter + 1 → r.URL ≠ nbm.URL) :
    Store.Add db now₁ now₂ nbm =
      (.ok { newRecord now₁ now₂ nbm with ID := db.counter + 1 },
        ⟨put { newRecord now₁ now₂ nbm with ID := db.counter + 1 } db.bucket,
          db.counter + 1⟩) := by
  rw [Add_eq_of_valid db now₁ now₂ (validateNewBookmark_nil.2 ⟨ht, hu⟩)]
  have h1 := (taken_false_iff db Bookmark.Title (db.counter + 1) nbm.Title).2 hT
  have h2 := (taken_false_iff db Bookmark.URL (db.counter + 1) nbm.URL).2 hU
  simp [DB.Save, newRecord, h1, h2, nowUTC_marshals]

/-- C1: `Add` of a request with an empty title and an empty url fails, in every state of the
store, with a validation error that names exactly the two fields `Title` and `URL`, returns
no record and leaves the store as it was; in general, when a required field is empty the
error names exactly the required fields that are empty, each once. -/
theorem add_validation_complete (db : DB) (now₁ now₂ : Time) (nbm : NewBookmark) :
    (nbm.Title = "" ∧ nbm.URL = "" →
      Store.Add db now₁ now₂ nbm = (.error (.Validation [Field.Title, Field.URL]), db)) ∧
    (nbm.Title = "" ∨ nbm.URL = "" →
      ∃ fs, Store.Add db now₁ now₂ nbm = (.error (.Validation fs), db) ∧ fs.Nodup ∧
        ∀ f, f ∈ fs ↔ (f = Field.Title ∧ nbm.Title = "") ∨ (f = Field.URL ∧ nbm.URL = "")) := by
  constructor
  · rintro ⟨h1, h2⟩
    simp [Store.Add, validateNewBookmark, h1, h2]
  · intro h
    by_cases h1 : nbm.Title = "" <;> by_cases h2 : nbm.URL = ""
    · refine ⟨[Field.Title, Field.URL], by simp [Store.Add, validateNewBookmark, h1, h2],
        by decide, ?_⟩
      intro f
      cases f <;> simp [h1, h2]
    · refine ⟨[Field.Title], by simp [Store.Add, validateNewBookmark, h1, h2], by decide, ?_⟩
      intro f
      cases f <;> simp [h1, h2]
    · refine ⟨[Field.URL], by simp [Store.Add, validateNewBookmark, h1, h2], by decide, ?_⟩
      intro f
      cases f <;> simp [h1, h2]
    · rcases h with h | h
      · exact absurd h h1
      · exact absurd h h2

/-- Witness of C1: the empty request on the empty store. -/
theorem add_validation_complete_witness :
    Store.Add DB.empty 0 0 ⟨"", "", none, ""⟩ =
      (.error (.Validation [Field.Title, Field.URL]), DB.empty) :=
  (add_validation_complete DB.empty 0 0 ⟨"", "", none, ""⟩).1 ⟨rfl, rfl⟩

/-- C3: whatever the sequence of `Add`, `Update`, `Delete` and `ImportCSV` calls on the
empty store, the identifiers returned by its successful `Add`s are strictly increasing in
call order; and the identifier a successful `Add` returns is larger than the identifier of
every record that was in the store at any earlier moment (after any part `pre` of the calls
made before it), so an identifier is never given out again, whether or not its record was
deleted in between. -/
theorem add_ids_strictly_increasing (parseTime : String → Option Time) :
    (∀ ops : List Op, (addIds parseTime DB.empty ops).Pairwise (fun i j => i < j)) ∧
    (∀ (pre mid : List Op) (nbm : NewBookmark) (now₁ now₂ : Time) (b : Bookmark) (db' : DB),
      Store.Add (run parseTime DB.empty (pre ++ mid)) now₁ now₂ nbm = (.ok b, db') →
      ∀ r ∈ (run parseTime DB.empty pre).bucket, r.ID < b.ID) := by
  refine ⟨fun ops => (addIds_increasing parseTime ops DB.empty).2, ?_⟩
  intro pre mid nbm now₁ now₂ b db' h r hr
  obtain ⟨-, -, hb, -, -, -⟩ := Add_ok h
  have hw : WF (run parseTime DB.empty pre) := WF_run parseTime pre DB.empty WF_empty
  have h1 := (hw.2.2.1 r hr).2
  have h2 := counter_run parseTime mid (run parseTime DB.empty pre)
  rw [← run_append] at h2
  have h3 : b.ID = (run parseTime DB.empty (pre ++ mid)).counter + 1 := by rw [hb]
  omega

/-- Witness of C3: a bookmark is added (id 1) and deleted, the next `Add` returns 2. -/
theorem add_ids_strictly_increasing_witness :
    addIds parseRFC3339 DB.empty
        [Op.Add ⟨"a", "http://a", none, ""⟩ 5 5, Op.Delete 1,
         Op.Add ⟨"a", "http://a", none, ""⟩ 6 6] = [1, 2] ∧
    ∀ r ∈ (run parseRFC3339 DB.empty [Op.Add ⟨"a", "http://a", none, ""⟩ 5 5]).bucket,
      r.ID < (2 : Int) :=
  ⟨rfl, (add_ids_strictly_increasing parseRFC3339).2 [Op.Add ⟨"a", "http://a", none, ""⟩ 5 5]
    [Op.Delete 1] ⟨"a", "http://a", none, ""⟩ 6 6 ⟨2, "a", "http://a", none, "", "", 6, 6⟩
    ⟨[⟨2, "a", "http://a", none, "", "", 6, 6⟩], 2⟩ rfl⟩

/-- C4: in every state of the store, `Add` of a request with non-empty title and url that no
stored record has returns a record `b`, and afterwards `Get(b.ID)` and `GetByURL(url)` both
succeed and return `b`, whose title, url, tags and notes are those of the request. -/
theorem add_get_roundtrip (db : DB) (now₁ now₂ : Time) (nbm : NewBookmark)
    (ht : nbm.Title ≠ "") (hu : nbm.URL ≠ "")
    (hfree : ∀ r ∈ db.bucket, r.Title ≠ nbm.Title ∧ r.URL ≠ nbm.URL) :
    ∃ b db', Store.Add db now₁ now₂ nbm = (.ok b, db') ∧
      Store.Get db' b.ID = .ok b ∧ Store.GetByURL db' nbm.URL = .ok b ∧
      b.Title = nbm.Title ∧ b.URL = nbm.URL ∧ b.Tags = nbm.Tags ∧ b.Notes = nbm.Notes := by
  have hadd := Add_succeeds now₁ now₂ ht hu (fun r hr _ => (hfree r hr).1)
    (fun r hr _ => (hfree r hr).2)
  generalize hb : ({ newRecord now₁ now₂ nbm with ID := db.counter + 1 } : Bookmark) = b
    at hadd
  have hU : b.URL = nbm.URL := by rw [← hb]; rfl
  refine ⟨b, _, hadd, ?_, ?_, by rw [← hb]; rfl, hU, by rw [← hb]; rfl, by rw [← hb]; rfl⟩
  · rw [Get_eq]
    dsimp only
    rw [find_put_self]
  · unfold Store.GetByURL DB.OneURL
    rw [if_neg hu]
    dsimp only
    rw [find_URL_put hU (fun r hr => (hfree r hr).2)]

/-- Witness of C4: the request of the repository's test `Test_CanGetBookmark` on the empty
store. -/
theorem add_get_roundtrip_witness :
    ∃ b db', Store.Add DB.empty 5 6 ⟨"test title", "https://test.com", some ["tag"],
        "test Note"⟩ = (.ok b, db') ∧
      Store.Get db' b.ID = .ok b ∧ Store.GetByURL db' "https://test.com" = .ok b ∧
      b.Title = "test title" ∧ b.URL = "https://test.com" ∧ b.Tags = some ["tag"] ∧
      b.Notes = "test Note" :=
  add_get_roundtrip DB.empty 5 6 ⟨"test title", "https://test.com", some ["tag"], "test Note"⟩
    (by decide) (by decide) (by simp [DB.empty])

theorem years_of_calendar :
    yearZero = daysSinceZero 0 1 1 * 86400 * 1000000000 ∧
    yearTenThousand = daysSinceZero 10000 1 1 * 86400 * 1000000000 := by
  decide

theorem marshals_examples :
    Time.marshals ⟨0, some 120⟩ = true ∧
    Time.marshals ⟨yearTenThousand - 1, none⟩ = true ∧
    Time.marshals ⟨yearTenThousand, none⟩ = false ∧
    Time.marshals ⟨yearZero, none⟩ = true ∧
    Time.marshals ⟨yearZero - 1, none⟩ = false ∧
    Time.marshals ⟨yearZero, some 1⟩ = true ∧
    Time.marshals ⟨yearZero, some (-1)⟩ = false ∧
    Time.marshals ⟨63713433600000000000, some 1439⟩ = true ∧
    Time.marshals ⟨63713433600000000000, some 1440⟩ = false ∧
    Time.marshals ⟨63713433600000000000, some (-1440)⟩ = false := by
  decide

theorem Save_refused_example :
    DB.Save DB.empty ⟨0, "A", "http://a", some [""], "", "",
      ⟨63713347200000000000, some 1440⟩, ⟨63713347200000000000, some 1440⟩⟩ =
      .error .Marshal ∧
    Store.ImportCSV (fun _ => some ⟨63713347200000000000, some 1440⟩) DB.empty
      [⟨csvHeader, none⟩, ⟨["A", "http://a", "", "", "", "2020-01-01T00:00:00+24:00",
        "2020-01-01T00:00:00+24:00"], none⟩] = (.err .Marshal, DB.empty) := by
  constructor
  · rfl
  · rfl

theorem find_filter_ne (l : List Bookmark) (id j : Int) (h : j ≠ id) :
    (l.filter (fun r => decide (r.ID ≠ id))).find? (fun r => decide (r.ID = j)) =
      l.find? (fun r => decide (r.ID = j)) := by
  rw [List.find?_filter]
  congr 1
  funext a
  by_cases h2 : a.ID = j
  · simp [h2, h]
  · simp [h2]

theorem Delete_of_not_live {db : DB} {id : Int} (h : ∀ r ∈ db.bucket, r.ID ≠ id) :
    Store.Delete db id = (some .ErrNotFound, db) := by
  have hany : ¬ (db.bucket.any (fun r => decide (r.ID = id)) = true) := by simpa using h
  simp [Store.Delete, DB.DeleteStruct, hany]

theorem Get_of_not_live {db : DB} {id : Int} (h : ∀ r ∈ db.bucket, r.ID ≠ id) :
    Store.Get db id = .error .ErrNotFound := by
  simp [Store.Get, OneID_of_not_live h]

/-- C5 (evaluation of the code): `Add` reads the clock twice; when the second reading is one
nanosecond after the first, the record that is returned and stored has a `CreatedAt` that
differs from its `UpdatedAt`. -/
theorem add_reads_clock_twice :
    ∃ b db', Store.Add DB.empty 63713433600000000000 63713433600000000001
        ⟨"T", "https://x", some ["a", "b"], "n"⟩ = (.ok b, db') ∧
      Store.Get db' b.ID = .ok b ∧
      b.CreatedAt = 63713433600000000000 ∧ b.UpdatedAt = 63713433600000000001 ∧
      b.CreatedAt ≠ b.UpdatedAt :=
  ⟨⟨1, "T", "https://x", some ["a", "b"], "n", "", 63713433600000000000,
    63713433600000000001⟩, _, rfl, rfl, rfl, rfl, by decide⟩

/-- C7 (as stated, refuted): on the empty store, where no id belongs to a record, `Update`
of a record with id 0 and empty fields does not fail with `ErrNotFound` but with a
validation error naming `ID`, `Title` and `URL`; and `Update` of a record with id 1 and an
empty title fails with a validation error naming `Title`. -/
theorem update_missing_counterexample :
    Store.Update DB.empty ⟨0, "", "", none, "", "", 0, 0⟩ [] =
      (.error (.Validation [Field.ID, Field.Title, Field.URL]), DB.empty) ∧
    Store.Update DB.empty ⟨1, "", "http://asd.com", none, "", "", 0, 0⟩ [] =
      (.error (.Validation [Field.Title]), DB.empty) :=
  ⟨rfl, rfl⟩

/-- C7 (amended): in every state of the store and for every id that belongs to no stored
record, `Get(id)` and `Delete(id)` fail with `ErrNotFound`, and so does `Update` of a record
with that id that passes the validation (non-zero id, non-empty title and url); `Update` of
a record that does not pass it fails with a validation error instead.  The store is left as
it was in each case. -/
theorem not_found_on_missing_id (db : DB) (id : Int) (h : ∀ r ∈ db.bucket, r.ID ≠ id) :
    Store.Get db id = .error .ErrNotFound ∧
    Store.Delete db id = (some .ErrNotFound, db) ∧
    ∀ bm : Bookmark, bm.ID = id →
      (bm.ID ≠ 0 ∧ bm.Title ≠ "" ∧ bm.URL ≠ "" →
        Store.Update db bm [] = (.error .ErrNotFound, db)) ∧
      (bm.ID = 0 ∨ bm.Title = "" ∨ bm.URL = "" →
        ∃ f fs, Store.Update db bm [] = (.error (.Validation (f :: fs)), db)) := by
  refine ⟨Get_of_not_live h, Delete_of_not_live h, ?_⟩
  intro bm hid
  constructor
  · rintro ⟨h0, ht, hu⟩
    have ho : db.OneID bm.ID = .error .StormNotFound := by
      rw [hid]
      exact OneID_of_not_live h
    have hu' : db.Update bm = .error .StormNotFound := by
      unfold DB.Update
      simp [h0, ho]
    unfold Store.Update
    simp [validateBookmark_nil.2 ⟨h0, ht, hu⟩, hu']
  · intro hinv
    cases hv : validateBookmark bm with
    | nil =>
      obtain ⟨h0, ht, hu⟩ := validateBookmark_nil.1 hv
      rcases hinv with hi | hi | hi
      · exact absurd hi h0
      · exact absurd hi ht
      · exact absurd hi hu
    | cons f fs =>
      refine ⟨f, fs, ?_⟩
      unfold Store.Update
      simp [hv]

/-- Witness of C7 (amended): the calls of the repository's tests on the empty store. -/
theorem not_found_on_missing_id_witness :
    Store.Get DB.empty 1 = .error .ErrNotFound ∧
    Store.Delete DB.empty 1 = (some .ErrNotFound, DB.empty) ∧
    Store.Update DB.empty ⟨1, "asd", "http://asd.com", none, "", "", 0, 0⟩ [] =
      (.error .ErrNotFound, DB.empty) :=
  have h := not_found_on_missing_id DB.empty 1 (by simp [DB.empty])
  ⟨h.1, h.2.1,
    (h.2.2 ⟨1, "asd", "http://asd.com", none, "", "", 0, 0⟩ rfl).1
      ⟨by decide, by decide, by decide⟩⟩

/-- C8: in every state of the store and for every id of a stored record, `Delete(id)`
succeeds; afterwards `Get(id)` fails with `ErrNotFound`, a second `Delete(id)` fails with
`ErrNotFound` and changes nothing, and `Get` of every other id returns what it returned
before. -/
theorem delete_removes_record (db : DB) (id : Int) (h : ∃ r ∈ db.bucket, r.ID = id) :
    ∃ db', Store.Delete db id = (none, db') ∧
      Store.Get db' id = .error .ErrNotFound ∧
      Store.Delete db' id = (some .ErrNotFound, db') ∧
      ∀ j, j ≠ id → Store.Get db' j = Store.Get db j := by
  have hany : db.bucket.any (fun r => decide (r.ID = id)) = true := by simpa using h
  have hgone : ∀ r ∈ (⟨db.bucket.filter (fun r => decide (r.ID ≠ id)), db.counter⟩ : DB).bucket,
      r.ID ≠ id := by
    intro r hr
    simpa using (List.mem_filter.1 hr).2
  refine ⟨⟨db.bucket.filter (fun r => decide (r.ID ≠ id)), db.counter⟩, ?_,
    Get_of_not_live hgone, Delete_of_not_live hgone, ?_⟩
  · simp [Store.Delete, DB.DeleteStruct, hany]
  · intro j hj
    rw [Get_eq, Get_eq]
    dsimp only
    rw [find_filter_ne _ _ _ hj]

/-- Witness of C8: two bookmarks are stored, the first is deleted, the second is still
there. -/
theorem delete_removes_record_witness :
    ∃ db', Store.Delete
        (run parseRFC3339 DB.empty
          [Op.Add ⟨"a", "http://a", none, ""⟩ 5 5, Op.Add ⟨"b", "http://b", none, ""⟩ 6 6]) 1 =
        (none, db') ∧
      Store.Get db' 1 = .error .ErrNotFound ∧
      Store.Delete db' 1 = (some .ErrNotFound, db') ∧
      ∀ j, j ≠ 1 → Store.Get db' j =
        Store.Get (run parseRFC3339 DB.empty
          [Op.Add ⟨"a", "http://a", none, ""⟩ 5 5, Op.Add ⟨"b", "http://b", none, ""⟩ 6 6]) j :=
  delete_removes_record
    (run parseRFC3339 DB.empty
      [Op.Add ⟨"a", "http://a", none, ""⟩ 5 5, Op.Add ⟨"b", "http://b", none, ""⟩ 6 6]) 1
    ⟨⟨1, "a", "http://a", none, "", "", 5, 5⟩, by decide, rfl⟩

/-- C9: in every state reachable from the empty store, `List` succeeds and returns one
summary per stored record, in the order of the records: the two sequences have the same
length and the summary at each position carries the id, title, url, tags, created_at and
updated_at of the record at that position; no two summaries have the same id.  On a store
without records `List` returns the empty sequence and no error. -/
theorem list_one_summary_per_record (parseTime : String → Option Time) (ops : List Op) :
    (∃ l, Store.List (run parseTime DB.empty ops) = .ok l ∧
      List.Forall₂ (fun (s : BookmarkSummary) (r : Bookmark) =>
        s.ID = r.ID ∧ s.Title = r.Title ∧ s.URL = r.URL ∧ s.Tags = r.Tags ∧
        s.CreatedAt = r.CreatedAt ∧ s.UpdatedAt = r.UpdatedAt) l
        (run parseTime DB.empty ops).bucket ∧
      l.length = (run parseTime DB.empty ops).bucket.length ∧
      (l.map BookmarkSummary.ID).Nodup) ∧
    ∀ c : Int, Store.List ⟨[], c⟩ = .ok [] := by
  have hw : WF (run parseTime DB.empty ops) := WF_run parseTime ops DB.empty WF_empty
  constructor
  · refine ⟨(run parseTime DB.empty ops).bucket.map summary, ?_, ?_, by simp, ?_⟩
    · simp [Store.List, DB.All, summary_foldl]
    · rw [List.forall₂_map_left_iff, List.forall₂_same]
      intro r _
      exact ⟨rfl, rfl, rfl, rfl, rfl, rfl⟩
    · rw [List.map_map, List.Nodup, List.pairwise_map]
      exact hw.1.imp (fun {a b} hab => by
        show a.ID ≠ b.ID
        omega)
  · intro c
    rfl

/-- C10 (evaluation of the code): `validateCSVHeader` compares the columns that are there
and does not look at their number.  A header row that is a proper prefix of the seven
columns passes, and the import of a file with such a header and one row of seven fields
(which the reader returns together with `ErrFieldCount`, an error the loop does not look at)
returns no error and stores the row.  On a header row of eight columns that starts with the
seven names the function indexes `csvHeader` out of range and panics. -/
theorem import_accepts_short_header :
    validateCSVHeader ["title", "url"] = some true ∧
    Store.ImportCSV parseRFC3339 DB.empty
      [⟨["title", "url"], none⟩,
       ⟨["A", "http://a", "x", "", "", "2020-01-01T00:00:00Z", "2020-01-01T00:00:00Z"],
         some .FieldCount⟩] =
      (.ok (), ⟨[⟨1, "A", "http://a", some ["x"], "", "", 63713433600000000000,
        63713433600000000000⟩], 1⟩) ∧
    validateCSVHeader (csvHeader ++ ["extra"]) = none ∧
    (Store.ImportCSV parseRFC3339 DB.empty [⟨csvHeader ++ ["extra"], none⟩]).1 = .panic :=
  ⟨rfl, rfl, rfl, rfl⟩

/-! ## Lemmas on paths -/

theorem splitChar_no_sep (sep : Char) (cs : List Char) :
    ∀ cur : List Char, sep ∉ cur → ∀ piece ∈ splitChar sep cur cs, sep ∉ piece := by
  induction cs with
  | nil =>
    intro cur hcur piece hp
    simp only [splitChar, List.mem_singleton] at hp
    rw [hp]
    simpa using hcur
  | cons c cs ih =>
    intro cur hcur piece hp
    unfold splitChar at hp
    split_ifs at hp with hc
    · simp only [List.mem_cons] at hp
      rcases hp with hp | hp
      · rw [hp]
        simpa using hcur
      · exact ih [] (by simp) piece hp
    · refine ih (c :: cur) ?_ piece hp
      simp only [List.mem_cons, not_or]
      exact ⟨fun h => hc h.symm, hcur⟩

theorem cleanStep_elems {stack : List (List Char)} {comp : List Char}
    (hs : ∀ e ∈ stack, IsElem e) (hc : '/' ∉ comp) : ∀ e ∈ cleanStep stack comp, IsElem e := by
  unfold cleanStep
  split_ifs with h1 h2
  · exact hs
  · intro e he
    exact hs e (List.mem_of_mem_dropLast he)
  · intro e he
    simp only [List.mem_append, List.mem_singleton] at he
    rcases he with he | he
    · exact hs e he
    · rw [he]
      exact ⟨fun h => h1 (Or.inl h), hc⟩

theorem foldl_cleanStep_elems (comps : List (List Char)) :
    ∀ stack : List (List Char), (∀ e ∈ stack, IsElem e) → (∀ c ∈ comps, '/' ∉ c) →
      ∀ e ∈ comps.foldl cleanStep stack, IsElem e := by
  induction comps with
  | nil => intro stack hs _; exact hs
  | cons c cs ih =>
    intro stack hs hc
    exact ih _ (cleanStep_elems hs (hc c (by simp))) (fun x hx => hc x (by simp [hx]))

theorem cleanElems_elems (p : List Char) : ∀ e ∈ cleanElems p, IsElem e :=
  foldl_cleanStep_elems _ [] (by simp) (splitChar_no_sep '/' p [] (by simp))

theorem indexSlash_none {l : List Char} (h : '/' ∉ l) : indexSlash l = -1 := by
  induction l with
  | nil => rfl
  | cons c cs ih =>
    simp only [List.mem_cons, not_or] at h
    have hc : ¬ c = '/' := fun e => h.1 e.symm
    simp [indexSlash, hc, ih h.2]

theorem indexSlash_append {l : List Char} (h : '/' ∉ l) (x : List Char) :
    indexSlash (l ++ '/' :: x) = l.length := by
  induction l with
  | nil => simp [indexSlash]
  | cons c cs ih =>
    simp only [List.mem_cons, not_or] at h
    have hc : ¬ c = '/' := fun e => h.1 e.symm
    have hi := ih h.2
    have hneg : ¬ indexSlash (cs ++ '/' :: x) < 0 := by rw [hi]; omega
    show indexSlash (c :: (cs ++ '/' :: x)) = _
    unfold indexSlash
    rw [if_neg hc, if_neg hneg, hi, List.length_cons]
    push_cast
    ring

theorem ShiftPath_root {p : String} (h : cleanElems ('/' :: p.data) = []) :
    ShiftPath p = ("", "/") := by
  simp [ShiftPath, cleanRooted, h, indexSlash]

theorem ShiftPath_one {p : String} {e : List Char} (h : cleanElems ('/' :: p.data) = [e])
    (he : '/' ∉ e) : ShiftPath p = (String.mk e, "/") := by
  simp [ShiftPath, cleanRooted, h, indexSlash_none he]

theorem ShiftPath_many {p : String} {e r : List Char} {rs : List (List Char)}
    (h : cleanElems ('/' :: p.data) = e :: r :: rs) (he : '/' ∉ e) :
    ShiftPath p = (String.mk e, String.mk (((r :: rs).map (fun c => '/' :: c)).flatten)) := by
  have hi := indexSlash_append he (r ++ (rs.map (fun c => '/' :: c)).flatten)
  have hpos : ¬ ((e.length : Int) + 1 ≤ 0) := by omega
  have hnat : ((e.length : Int) + 1).toNat = e.length + 1 := by omega
  simp only [ShiftPath, cleanRooted, h, List.map_cons, List.flatten_cons, List.cons_append,
    List.drop_succ_cons, List.drop_zero, List.append_assoc, hi, hpos, if_false, hnat,
    List.take_succ_cons, reduceCtorEq]
  simp

theorem getLast_flatten_elems (l : List (List Char)) (r : List Char) (hr : IsElem r)
    (hl : ∀ e ∈ l, IsElem e) :
    (((r :: l).map (fun c => '/' :: c)).flatten).getLast? ≠ some '/' := by
  induction l generalizing r with
  | nil =>
    obtain ⟨hne, hs⟩ := hr
    simp only [List.map_cons, List.map_nil, List.flatten_cons, List.flatten_nil,
      List.append_nil]
    cases r with
    | nil => exact absurd rfl hne
    | cons a t =>
      rw [List.getLast?_cons_cons]
      intro hlast
      exact hs (List.mem_of_getLast?_eq_some hlast)
  | cons x xs ih =>
    have hx := ih x (hl x (by simp)) (fun e he => hl e (by simp [he]))
    simp only [List.map_cons, List.flatten_cons] at hx ⊢
    rw [List.getLast?_append_of_ne_nil _ (by simp)]
    exact hx

/-- C18: for every string `p`, with `(head, tail) = ShiftPath(p)`: `head` contains no slash;
`tail` starts with a slash and, unless it is the root `/`, does not end with one; `head` is
the first element of the cleaned path `"/" + p` (the empty string when there is none); when
the cleaned path has more than one element it is `"/" + head + tail`, otherwise `tail` is
`/` and the cleaned path is `"/" + head`. -/
theorem shiftPath_splits_first_element (p : String) :
    '/' ∉ (ShiftPath p).1.data ∧
    (ShiftPath p).2.data.head? = some '/' ∧
    ((ShiftPath p).2 = "/" ∨ (ShiftPath p).2.data.getLast? ≠ some '/') ∧
    (ShiftPath p).1.data = (cleanElems ('/' :: p.data)).headD [] ∧
    (if 2 ≤ (cleanElems ('/' :: p.data)).length then
      '/' :: ((ShiftPath p).1.data ++ (ShiftPath p).2.data) = cleanRooted ('/' :: p.data)
    else
      (ShiftPath p).2 = "/" ∧ '/' :: (ShiftPath p).1.data = cleanRooted ('/' :: p.data)) := by
  have helems := cleanElems_elems ('/' :: p.data)
  cases h : cleanElems ('/' :: p.data) with
  | nil =>
    rw [ShiftPath_root h]
    simp [cleanRooted, h]
  | cons e l =>
    rw [h] at helems
    have he : IsElem e := helems e (by simp)
    cases l with
    | nil =>
      rw [ShiftPath_one h he.2]
      refine ⟨he.2, rfl, Or.inl rfl, rfl, ?_⟩
      simp [cleanRooted, h]
    | cons r rs =>
      rw [ShiftPath_many h he.2]
      have hr : IsElem r := helems r (by simp)
      have hrs : ∀ x ∈ rs, IsElem x := fun x hx => helems x (by simp [hx])
      refine ⟨he.2, by simp, Or.inr (getLast_flatten_elems rs r hr hrs), rfl, ?_⟩
      simp [cleanRooted, h]

/-! ## Lemmas on the import -/

theorem put_append_of_lt {bm : Bookmark} {l : List Bookmark} (h : ∀ r ∈ l, r.ID < bm.ID) :
    put bm l = l ++ [bm] := by
  induction l with
  | nil => rfl
  | cons r rs ih =>
    have hr : r.ID < bm.ID := h r (by simp)
    have h1 : ¬ r.ID = bm.ID := by omega
    have h2 : ¬ bm.ID < r.ID := by omega
    simp [put, h1, h2, ih (fun x hx => h x (by simp [hx]))]

theorem parseBookmark_bad_time (parseTime : String → Option Time)
    (f₁ f₂ f₃ f₄ f₅ f₆ f₇ : String) (h : parseTime f₆ = none ∨ parseTime f₇ = none) :
    parseBookmark parseTime [f₁, f₂, f₃, f₄, f₅, f₆, f₇] = .err .TimeParse := by
  cases h6 : parseTime f₆ with
  | none => simp [parseBookmark, h6]
  | some cr =>
    rcases h with h | h
    · rw [h6] at h
      exact absurd h (by simp)
    · simp [parseBookmark, h6, h]

theorem importRows_cons_ok {parseTime : String → Option Time} {db d : DB} {r : ReadResult}
    {bm saved : Bookmark} (rest : List ReadResult) (he : r.err ≠ some .EOF)
    (hp : parseBookmark parseTime r.record = .ok bm) (hs : db.Save bm = .ok (saved, d)) :
    importRows parseTime db (r :: rest) = importRows parseTime d rest := by
  rw [importRows, if_neg he, hp]
  dsimp only
  rw [hs]

theorem importRows_cons_inv {parseTime : String → Option Time} {db db₁ : DB} {r : ReadResult}
    {rest : List ReadResult} (he : r.err ≠ some .EOF)
    (h : importRows parseTime db (r :: rest) = (.ok (), db₁)) :
    ∃ bm saved d, parseBookmark parseTime r.record = .ok bm ∧ db.Save bm = .ok (saved, d) ∧
      importRows parseTime d rest = (.ok (), db₁) := by
  rw [importRows, if_neg he] at h
  cases hp : parseBookmark parseTime r.record with
  | panic => simp [hp] at h
  | err e => simp [hp] at h
  | ok bm =>
    rw [hp] at h
    dsimp only at h
    cases hs : db.Save bm with
    | error e => simp [hs] at h
    | ok q =>
      obtain ⟨saved, d⟩ := q
      rw [hs] at h
      exact ⟨bm, saved, d, rfl, hs, h⟩

/-- The rows that are imported without error are added at the end of the bucket, in the
order of the file. -/
theorem importRows_ok_bucket (parseTime : String → Option Time) (pre : List ReadResult) :
    ∀ db db₁ : DB, WF db → (∀ r ∈ pre, r.err ≠ some .EOF) →
      importRows parseTime db pre = (.ok (), db₁) →
      ∃ news, db₁.bucket = db.bucket ++ news ∧
        List.Forall₂ (fun (r : ReadResult) (b : Bookmark) =>
          parseBookmark parseTime r.record = .ok { b with ID := 0 }) pre news := by
  induction pre with
  | nil =>
    intro db db₁ _ _ h
    simp only [importRows, Prod.mk.injEq] at h
    exact ⟨[], by rw [← h.2]; simp, List.Forall₂.nil⟩
  | cons r rest ih =>
    intro db db₁ hw hne h
    obtain ⟨bm, saved, d, hp, hs, hrest⟩ := importRows_cons_inv (hne r (by simp)) h
    have hz := parseBookmark_ID hp
    obtain ⟨h1, h2, -, -⟩ := Save_zero hz hs
    have hwd : WF d := WF_Save_zero hw hz hs
    obtain ⟨news, hb, hf⟩ := ih d db₁ hwd (fun x hx => hne x (by simp [hx])) hrest
    have hid : saved.ID = db.counter + 1 := by rw [h1]
    have hput : put saved db.bucket = db.bucket ++ [saved] := by
      apply put_append_of_lt
      intro x hx
      have := (hw.2.2.1 x hx).2
      omega
    refine ⟨saved :: news, ?_, List.Forall₂.cons ?_ hf⟩
    · rw [hb, h2]
      show put saved db.bucket ++ news = _
      rw [hput]
      simp
    · rw [hp, h1]
      cases bm
      simp only [Res.ok.injEq, Bookmark.mk.injEq, and_true, true_and]
      exact hz

theorem importRows_append (parseTime : String → Option Time) (pre : List ReadResult) :
    ∀ (db db₁ : DB) (rest : List ReadResult), (∀ r ∈ pre, r.err ≠ some .EOF) →
      importRows parseTime db pre = (.ok (), db₁) →
      importRows parseTime db (pre ++ rest) = importRows parseTime db₁ rest := by
  induction pre with
  | nil =>
    intro db db₁ rest _ h
    simp only [importRows, Prod.mk.injEq] at h
    rw [← h.2]
    rfl
  | cons r pre ih =>
    intro db db₁ rest hne h
    obtain ⟨bm, saved, d, hp, hs, hrest⟩ := importRows_cons_inv (hne r (by simp)) h
    rw [List.cons_append, importRows_cons_ok _ (hne r (by simp)) hp hs]
    exact ih d db₁ rest (fun x hx => hne x (by simp [hx])) hrest

theorem ImportCSV_of_header {parseTime : String → Option Time} (db : DB) {header : List String}
    (rows : List ReadResult) (hh : validateCSVHeader header = some true) :
    Store.ImportCSV parseTime db (⟨header, none⟩ :: rows) = importRows parseTime db rows := by
  simp [Store.ImportCSV, hh]

/-! ## The timestamps of RFC 3339 and the codec -/

theorem digitVal_le {c : Char} {x : Nat} (h : digitVal c = some x) : x ≤ 9 := by
  unfold digitVal at h
  split_ifs at h with hd
  simp only [Option.some.injEq] at h
  simp only [Char.isDigit, Bool.and_eq_true, decide_eq_true_eq] at hd
  have h1 : c.val.toNat ≤ 57 := hd.2
  have h2 : c.toNat = c.val.toNat := rfl
  omega

theorem twoDigits_le {cs r : List Char} {n : Nat} (h : twoDigits cs = some (n, r)) :
    n ≤ 99 := by
  unfold twoDigits at h
  split at h
  · next a b rest =>
    cases ha : digitVal a with
    | none => simp [ha] at h
    | some x =>
      cases hb : digitVal b with
      | none => simp [ha, hb] at h
      | some y =>
        simp only [ha, hb, Option.some.injEq, Prod.mk.injEq] at h
        have := digitVal_le ha
        have := digitVal_le hb
        omega
  · simp at h

theorem twoDigitsThen_le {c : Char} {cs r : List Char} {n : Nat}
    (h : twoDigitsThen c cs = some (n, r)) : n ≤ 99 := by
  unfold twoDigitsThen at h
  cases ht : twoDigits cs with
  | none => simp [ht] at h
  | some p =>
    obtain ⟨k, r₁⟩ := p
    simp only [ht] at h
    cases he : expectChar c r₁ with
    | none => simp [he] at h
    | some r₂ =>
      simp only [he, Option.some.injEq, Prod.mk.injEq] at h
      have := twoDigits_le ht
      omega

theorem dayOfYear_le {m d y : Nat} (h1 : 1 ≤ m) (h2 : m ≤ 12) (h3 : d ≤ daysIn m y) :
    daysBeforeMonth m y + d ≤ 365 + (if isLeap y = true then 1 else 0) := by
  interval_cases m <;>
    simp [daysBeforeMonth, daysIn, List.range_succ] at h3 ⊢ <;>
    split_ifs at h3 ⊢ <;> omega

theorem yearStart_succ (y : Nat) :
    365 * ((y : Int) - 1) + ((y : Int) - 1) / 4 - ((y : Int) - 1) / 100 + ((y : Int) - 1) / 400 +
      365 + (if isLeap y = true then 1 else 0) =
    365 * (y : Int) + (y : Int) / 4 - (y : Int) / 100 + (y : Int) / 400 := by
  unfold isLeap
  simp only [Bool.and_eq_true, Bool.or_eq_true, beq_iff_eq, bne_iff_ne, ne_eq]
  split_ifs with h <;> omega

theorem yearStart_le {y : Nat} (h : y ≤ 9999) :
    365 * (y : Int) + (y : Int) / 4 - (y : Int) / 100 + (y : Int) / 400 ≤ 3652059 := by
  omega

theorem yearStart_ge (y : Nat) :
    -366 ≤ 365 * ((y : Int) - 1) + ((y : Int) - 1) / 4 - ((y : Int) - 1) / 100 +
      ((y : Int) - 1) / 400 := by
  omega

theorem readDate_range {cs r : List Char} {days : Int} (h : readDate cs = some (days, r)) :
    -366 ≤ days ∧ days ≤ 3652058 := by
  unfold readDate at h
  cases h1 : twoDigits cs with
  | none => simp [h1] at h
  | some p₁ =>
    obtain ⟨y₁, r₁⟩ := p₁
    simp only [h1] at h
    cases h2 : twoDigitsThen '-' r₁ with
    | none => simp [h2] at h
    | some p₂ =>
      obtain ⟨y₂, r₂⟩ := p₂
      simp only [h2] at h
      cases h3 : twoDigitsThen '-' r₂ with
      | none => simp [h3] at h
      | some p₃ =>
        obtain ⟨mo, r₃⟩ := p₃
        simp only [h3] at h
        cases h4 : twoDigitsThen 'T' r₃ with
        | none => simp [h4] at h
        | some p₄ =>
          obtain ⟨d, r₄⟩ := p₄
          simp only [h4] at h
          split_ifs at h with hr
          simp only [Option.some.injEq, Prod.mk.injEq] at h
          have hy₁ := twoDigits_le h1
          have hy₂ := twoDigitsThen_le h2
          have hy : 100 * y₁ + y₂ ≤ 9999 := by omega
          have hd := dayOfYear_le hr.1 hr.2.1 hr.2.2.2
          have hs := yearStart_succ (100 * y₁ + y₂)
          have hl := yearStart_le hy
          have hg := yearStart_ge (100 * y₁ + y₂)
          have hdays : days = daysSinceZero (100 * y₁ + y₂) mo d := h.1.symm
          unfold daysSinceZero at hdays
          dsimp only at hdays
          have hd1 : 1 ≤ d := hr.2.2.1
          split_ifs at hd hs <;> omega

theorem digits_foldl (l : List Char) (hl : ∀ c ∈ l, c.isDigit = true) (n : Nat) :
    l.foldl (fun n c => 10 * n + (c.toNat - 48)) n < (n + 1) * 10 ^ l.length := by
  induction l generalizing n with
  | nil => simp
  | cons c cs ih =>
    have hc : c.toNat - 48 ≤ 9 := digitVal_le (by
      unfold digitVal
      rw [if_pos (hl c (by simp))])
    have h := ih (fun x hx => hl x (by simp [hx])) (10 * n + (c.toNat - 48))
    simp only [List.foldl_cons, List.length_cons]
    calc _ < (10 * n + (c.toNat - 48) + 1) * 10 ^ cs.length := h
      _ ≤ ((n + 1) * 10) * 10 ^ cs.length := Nat.mul_le_mul_right _ (by omega)
      _ = (n + 1) * 10 ^ (cs.length + 1) := by rw [pow_succ]; ring

theorem fraction_lt (cs : List Char) : (fraction cs).1 < 1000000000 := by
  unfold fraction
  split
  · next d rest =>
    split_ifs with hd
    · have hall : ∀ c ∈ (List.takeWhile Char.isDigit (d :: rest) ++ List.replicate 9 '0').take 9,
          c.isDigit = true := by
        intro c hc
        have hc' := List.mem_of_mem_take hc
        rcases List.mem_append.1 hc' with h | h
        · exact (List.mem_takeWhile_imp h)
        · rw [(List.mem_replicate.1 h).2]
          rfl
      have hlen : ((List.takeWhile Char.isDigit (d :: rest) ++ List.replicate 9 '0').take 9).length
          ≤ 9 := by
        rw [List.length_take]
        omega
      have h := digits_foldl _ hall 0
      dsimp only
      calc _ < (0 + 1) * 10 ^ _ := h
        _ ≤ (0 + 1) * 10 ^ 9 := Nat.mul_le_mul_left _ (Nat.pow_le_pow_right (by omega) hlen)
        _ = 1000000000 := by norm_num
    · simp
  · simp

theorem readClock_lt {cs r : List Char} {ns : Nat} (h : readClock cs = some (ns, r)) :
    ns < 86400000000000 := by
  unfold readClock at h
  cases h1 : twoDigitsThen ':' cs with
  | none => simp [h1] at h
  | some p₁ =>
    obtain ⟨hh, r₁⟩ := p₁
    simp only [h1] at h
    cases h2 : twoDigitsThen ':' r₁ with
    | none => simp [h2] at h
    | some p₂ =>
      obtain ⟨mi, r₂⟩ := p₂
      simp only [h2] at h
      cases h3 : twoDigits r₂ with
      | none => simp [h3] at h
      | some p₃ =>
        obtain ⟨sec, r₃⟩ := p₃
        simp only [h3] at h
        split_ifs at h with hr
        simp only [Option.some.injEq, Prod.mk.injEq] at h
        have hf := fraction_lt r₃
        omega

theorem zoneOffset_lt {cs r : List Char} {zone : Option Int}
    (h : zoneOffset cs = some (zone, r)) : (zone.getD 0).natAbs < 1440 := by
  unfold zoneOffset at h
  split at h
  · simp only [Option.some.injEq, Prod.mk.injEq] at h
    rw [← h.1]
    decide
  · next s rest _ =>
    by_cases hs : s = '+' ∨ s = '-'
    · rw [if_pos hs] at h
      cases h1 : twoDigits rest with
      | none => simp [h1] at h
      | some p₁ =>
        obtain ⟨hh, r₁⟩ := p₁
        simp only [h1] at h
        cases h2 : expectChar ':' r₁ with
        | none => simp [h2] at h
        | some r₂ =>
          simp only [h2] at h
          cases h3 : twoDigits r₂ with
          | none => simp [h3] at h
          | some p₃ =>
            obtain ⟨mm, r₃⟩ := p₃
            simp only [h3] at h
            split_ifs at h with hr hm
            all_goals
              simp only [Option.some.injEq, Prod.mk.injEq] at h
              rw [← h.1]
              simp only [Option.getD_some]
              omega
    · rw [if_neg hs] at h
      simp at h
  · simp at h

/-- A timestamp that the reader of RFC 3339 accepts is one that the codec writes. -/
theorem parseRFC3339_marshals {s : String} {t : Time} (h : parseRFC3339 s = some t) :
    t.marshals = true := by
  unfold parseRFC3339 at h
  cases h1 : readDate s.data with
  | none => simp [h1] at h
  | some p₁ =>
    obtain ⟨days, r₁⟩ := p₁
    simp only [h1] at h
    cases h2 : readClock r₁ with
    | none => simp [h2] at h
    | some p₂ =>
      obtain ⟨ns, r₂⟩ := p₂
      simp only [h2] at h
      cases h3 : zoneOffset r₂ with
      | none => simp [h3] at h
      | some p₃ =>
        obtain ⟨zone, r₃⟩ := p₃
        simp only [h3] at h
        split_ifs at h with hr
        simp only [Option.some.injEq] at h
        have hd := readDate_range h1
        have hc := readClock_lt h2
        have hz := zoneOffset_lt h3
        rw [← h]
        simp only [Time.marshals, yearZero, yearTenThousand, decide_eq_true_eq]
        refine ⟨hz, ?_, ?_⟩ <;> omega

/-! ## The claims on the CSV import -/

/-- C11 (as stated, refuted): the data row `A|http://a|x;y||2020-01-01T00:00:00Z|2020-01-01T00:00:00Z`
has six fields, one less than the header.  The reader returns it together with
`ErrFieldCount`, the loop does not look at the error, `parseBookmark` reads `data[5]` as
created_at and panics at `data[6]`; no record is stored. -/
theorem csv_example_counterexample :
    csvReads ("title|url|tags|notes|document|created_at|updated_at\n" ++
        "A|http://a|x;y||2020-01-01T00:00:00Z|2020-01-01T00:00:00Z\n") =
      some [⟨csvHeader, none⟩,
        ⟨["A", "http://a", "x;y", "", "2020-01-01T00:00:00Z", "2020-01-01T00:00:00Z"],
          some .FieldCount⟩] ∧
    Store.ImportCSV parseRFC3339 DB.empty
      [⟨csvHeader, none⟩,
        ⟨["A", "http://a", "x;y", "", "2020-01-01T00:00:00Z", "2020-01-01T00:00:00Z"],
          some .FieldCount⟩] = (.panic, DB.empty) :=
  ⟨rfl, rfl⟩

/-- C11 (amended): with the data row written with its seven fields,
`A|http://a|x;y|||2020-01-01T00:00:00Z|2020-01-01T00:00:00Z` (empty notes and empty
document), the import into the empty store succeeds and leaves exactly one record, with
title `A`, url `http://a` and tags `x`, `y`. -/
theorem csv_example_seven_fields :
    csvReads ("title|url|tags|notes|document|created_at|updated_at\n" ++
        "A|http://a|x;y|||2020-01-01T00:00:00Z|2020-01-01T00:00:00Z\n") =
      some [⟨csvHeader, none⟩,
        ⟨["A", "http://a", "x;y", "", "", "2020-01-01T00:00:00Z", "2020-01-01T00:00:00Z"],
          none⟩] ∧
    Store.ImportCSV parseRFC3339 DB.empty
      [⟨csvHeader, none⟩,
        ⟨["A", "http://a", "x;y", "", "", "2020-01-01T00:00:00Z", "2020-01-01T00:00:00Z"],
          none⟩] =
      (.ok (), ⟨[⟨1, "A", "http://a", some ["x", "y"], "", "", 63713433600000000000,
        63713433600000000000⟩], 1⟩) :=
  ⟨rfl, rfl⟩

/-- C13 (as stated, refuted): in this file the third data row is the first one with an
unparsable timestamp, but the second row has the url of the first.  The import stops at
the second row with `storm.ErrAlreadyExists`, not with an error of the time parser, and only
the first of the two rows before the bad one is in the store. -/
theorem import_fail_fast_counterexample :
    Store.ImportCSV parseRFC3339 DB.empty
      [⟨csvHeader, none⟩,
        ⟨["A", "http://a", "", "", "", "2020-01-01T00:00:00Z", "2020-01-01T00:00:00Z"], none⟩,
        ⟨["B", "http://a", "", "", "", "2020-01-01T00:00:00Z", "2020-01-01T00:00:00Z"], none⟩,
        ⟨["C", "http://c", "", "", "", "yesterday", "2020-01-01T00:00:00Z"], none⟩] =
      (.err .AlreadyExists,
        ⟨[⟨1, "A", "http://a", some [""], "", "", 63713433600000000000,
          63713433600000000000⟩], 1⟩) :=
  rfl

/-- C13 (amended): take a state reachable from the empty store and a file with a valid
header whose k-th data row has seven fields and a created_at or updated_at that the time
parser rejects, and whose k-1 rows before it are imported without error (the import of the
file cut before the k-th row succeeds and leaves the state `db₁`).  Then `ImportCSV` returns
the error of the time parser and leaves the state `db₁`, whatever rows follow the k-th: the
bucket is the one before the call followed by one record for each of the k-1 rows, with the
fields of its row, and nothing of the k-th row or of a later one. -/
theorem import_stops_at_bad_timestamp (parseTime : String → Option Time) (ops : List Op)
    (db₁ : DB) (header : List String) (pre post : List ReadResult)
    (f₁ f₂ f₃ f₄ f₅ f₆ f₇ : String) (e : Option ReadErr)
    (hh : validateCSVHeader header = some true)
    (hpre : ∀ r ∈ pre, r.err ≠ some .EOF) (he : e ≠ some .EOF)
    (hok : Store.ImportCSV parseTime (run parseTime DB.empty ops) (⟨header, none⟩ :: pre) =
      (.ok (), db₁))
    (hbad : parseTime f₆ = none ∨ parseTime f₇ = none) :
    Store.ImportCSV parseTime (run parseTime DB.empty ops)
        (⟨header, none⟩ :: (pre ++ ⟨[f₁, f₂, f₃, f₄, f₅, f₆, f₇], e⟩ :: post)) =
      (.err .TimeParse, db₁) ∧
    ∃ news, db₁.bucket = (run parseTime DB.empty ops).bucket ++ news ∧
      List.Forall₂ (fun (r : ReadResult) (b : Bookmark) =>
        parseBookmark parseTime r.record = .ok { b with ID := 0 }) pre news := by
  have hw : WF (run parseTime DB.empty ops) := WF_run parseTime ops DB.empty WF_empty
  rw [ImportCSV_of_header _ _ hh] at hok
  rw [ImportCSV_of_header _ _ hh, importRows_append parseTime pre _ db₁ _ hpre hok]
  refine ⟨?_, importRows_ok_bucket parseTime pre _ db₁ hw hpre hok⟩
  rw [importRows, if_neg he, parseBookmark_bad_time parseTime f₁ f₂ f₃ f₄ f₅ f₆ f₇ hbad]

/-- Witness of C13 (amended): one good row, then a row with the created_at `yesterday`, then
a third row; the import stops with the parser's error and the store holds the first row. -/
theorem import_stops_at_bad_timestamp_witness :
    Store.ImportCSV parseRFC3339 (run parseRFC3339 DB.empty [])
        (⟨csvHeader, none⟩ ::
          ([⟨["A", "http://a", "", "", "", "2020-01-01T00:00:00Z", "2020-01-01T00:00:00Z"],
              none⟩] ++
            ⟨["B", "http://b", "", "", "", "yesterday", "2020-01-01T00:00:00Z"], none⟩ ::
            [⟨["C", "http://c", "", "", "", "2020-01-01T00:00:00Z", "2020-01-01T00:00:00Z"],
              none⟩])) =
      (.err .TimeParse,
        ⟨[⟨1, "A", "http://a", some [""], "", "", 63713433600000000000,
          63713433600000000000⟩], 1⟩) :=
  (import_stops_at_bad_timestamp parseRFC3339 []
    ⟨[⟨1, "A", "http://a", some [""], "", "", 63713433600000000000, 63713433600000000000⟩], 1⟩
    csvHeader
    [⟨["A", "http://a", "", "", "", "2020-01-01T00:00:00Z", "2020-01-01T00:00:00Z"], none⟩]
    [⟨["C", "http://c", "", "", "", "2020-01-01T00:00:00Z", "2020-01-01T00:00:00Z"], none⟩]
    "B" "http://b" "" "" "" "yesterday" "2020-01-01T00:00:00Z" none
    (by rfl) (by decide) (by decide) (by rfl) (Or.inl (by rfl))).1

/-- C14 (evaluation of the code): `ImportCSV` hands the parsed row to `db.Save` and not to
`Add`, so the row is not validated.  A row with an empty title and an empty url is imported
without error and stored, while `Add` of a request with the same title, url, tags and notes
fails with a validation error that names `Title` and `URL`. -/
theorem import_skips_validation :
    csvReads ("title|url|tags|notes|document|created_at|updated_at\n" ++
        "||x|n||2020-01-01T00:00:00Z|2020-01-01T00:00:00Z\n") =
      some [⟨csvHeader, none⟩,
        ⟨["", "", "x", "n", "", "2020-01-01T00:00:00Z", "2020-01-01T00:00:00Z"], none⟩] ∧
    Store.ImportCSV parseRFC3339 DB.empty
      [⟨csvHeader, none⟩,
        ⟨["", "", "x", "n", "", "2020-01-01T00:00:00Z", "2020-01-01T00:00:00Z"], none⟩] =
      (.ok (), ⟨[⟨1, "", "", some ["x"], "n", "", 63713433600000000000,
        63713433600000000000⟩], 1⟩) ∧
    Store.Add DB.empty 63713433600000000000 63713433600000000000 ⟨"", "", some ["x"], "n"⟩ =
      (.error (.Validation [Field.Title, Field.URL]), DB.empty) :=
  ⟨rfl, rfl, rfl⟩

/-- C19 (evaluation of the code): the loop of `ImportCSV` only compares the error of
`csvReader.Read()` with `io.EOF` and hands the record to `parseBookmark` in every other
case.  A data row of three fields (returned with `ErrFieldCount`) makes `parseBookmark`
panic at `data[5]`; a row for which the reader reports a syntax error and returns no record
makes it panic at `data[2]`; a row of eight fields (returned with `ErrFieldCount`) is stored
and the import goes on. -/
theorem import_malformed_rows :
    csvReads ("title|url|tags|notes|document|created_at|updated_at\n" ++ "A|http://a|x\n") =
      some [⟨csvHeader, none⟩, ⟨["A", "http://a", "x"], some .FieldCount⟩] ∧
    Store.ImportCSV parseRFC3339 DB.empty
      [⟨csvHeader, none⟩, ⟨["A", "http://a", "x"], some .FieldCount⟩] = (.panic, DB.empty) ∧
    Store.ImportCSV parseRFC3339 DB.empty
      [⟨csvHeader, none⟩, ⟨[], some .Other⟩] = (.panic, DB.empty) ∧
    Store.ImportCSV parseRFC3339 DB.empty
      [⟨csvHeader, none⟩,
        ⟨["A", "http://a", "x", "", "", "2020-01-01T00:00:00Z", "2020-01-01T00:00:00Z",
          "extra"], some .FieldCount⟩] =
      (.ok (), ⟨[⟨1, "A", "http://a", some ["x"], "", "", 63713433600000000000,
        63713433600000000000⟩], 1⟩) :=
  ⟨rfl, rfl, rfl, rfl⟩

/-! ## The claims on the handler, the timestamps and the command line -/

/-- C15 (as stated, refuted): the store holds the bookmark with title `a`.  A request to
create a second bookmark with that title makes `Add` fail with `storm.ErrAlreadyExists`, and
a request to give the second stored bookmark that title makes `Update` fail with the same
error; the handler answers both with status 500, not 400. -/
theorem handler_constraint_counterexample :
    (storeOf (run parseRFC3339 DB.empty
        [Op.Add ⟨"a", "http://a", none, ""⟩ 5 5, Op.Add ⟨"b", "http://b", none, ""⟩ 6 6])
      7 7).Add ⟨"a", "http://c", none, ""⟩ = .error .AlreadyExists ∧
    status (createBookmarkHandler
      (storeOf (run parseRFC3339 DB.empty
        [Op.Add ⟨"a", "http://a", none, ""⟩ 5 5, Op.Add ⟨"b", "http://b", none, ""⟩ 6 6])
        7 7)
      (.Value ⟨"a", "http://c", none, ""⟩) false false) = 500 ∧
    (storeOf (run parseRFC3339 DB.empty
        [Op.Add ⟨"a", "http://a", none, ""⟩ 5 5, Op.Add ⟨"b", "http://b", none, ""⟩ 6 6])
      7 7).Update ⟨2, "a", "http://b", none, "", "", 0, 0⟩ = .error .AlreadyExists ∧
    status (updateBookmarkHandler
      (storeOf (run parseRFC3339 DB.empty
        [Op.Add ⟨"a", "http://a", none, ""⟩ 5 5, Op.Add ⟨"b", "http://b", none, ""⟩ 6 6])
        7 7)
      (.Value ⟨0, "a", "http://b", none, "", "", 0, 0⟩) 2 false false) = 500 :=
  ⟨rfl, rfl, rfl, rfl⟩

/-- C15 (amended): for every repository and every request that reaches a repository call:
when `Get`, `Update` or `Delete` fails with `ErrNotFound` the status is 404; when `Add` or
`Update` fails with validation errors the status is 400; for every other error of the
repository, `storm.ErrAlreadyExists` included, the status is 500; when the call succeeds the
status is 200, provided the result can be marshalled (`Delete` has no result). -/
theorem handler_status (repo : Storager) (marshalFails writeFails : Bool) :
    (∀ nbm e, repo.Add nbm = .error e →
      status (createBookmarkHandler repo (.Value nbm) marshalFails writeFails) =
        if isValidationErrors e then 400 else 500) ∧
    (∀ bm id e, repo.Update { bm with ID := id } = .error e →
      status (updateBookmarkHandler repo (.Value bm) id marshalFails writeFails) =
        if e = .ErrNotFound then 404 else if isValidationErrors e then 400 else 500) ∧
    (∀ id e, repo.Delete id = some e →
      status (deleteBookmarkHandler repo id) = if e = .ErrNotFound then 404 else 500) ∧
    (∀ id e, repo.Get id = .error e →
      status (getBookmarkHandler repo id marshalFails writeFails) =
        if e = .ErrNotFound then 404 else 500) ∧
    (∀ e, repo.ListAll = .error e →
      status (listBookmarkHandler repo marshalFails writeFails) = 500) ∧
    (∀ nbm b, repo.Add nbm = .ok b →
      status (createBookmarkHandler repo (.Value nbm) false writeFails) = 200) ∧
    (∀ bm id b, repo.Update { bm with ID := id } = .ok b →
      status (updateBookmarkHandler repo (.Value bm) id false writeFails) = 200) ∧
    (∀ id, repo.Delete id = none → status (deleteBookmarkHandler repo id) = 200) ∧
    (∀ id b, repo.Get id = .ok b →
      status (getBookmarkHandler repo id false writeFails) = 200) ∧
    (∀ l, repo.ListAll = .ok l → status (listBookmarkHandler repo false writeFails) = 200) := by
  have hw : ∀ w : Bool, status (writeJSON false w) = 200 := by
    intro w
    cases w <;> rfl
  refine ⟨?_, ?_, ?_, ?_, ?_, ?_, ?_, ?_, ?_, ?_⟩
  · intro nbm e h
    simp only [createBookmarkHandler, h]
    cases isValidationErrors e <;> rfl
  · intro bm id e h
    simp only [updateBookmarkHandler, h]
    by_cases h1 : e = .ErrNotFound
    · simp [h1, status]
    · simp only [h1, if_false]
      cases isValidationErrors e <;> rfl
  · intro id e h
    simp only [deleteBookmarkHandler, h]
    by_cases h1 : e = .ErrNotFound <;> simp [h1, status]
  · intro id e h
    simp only [getBookmarkHandler, h]
    by_cases h1 : e = .ErrNotFound <;> simp [h1, status]
  · intro e h
    simp [listBookmarkHandler, h, status]
  · intro nbm b h
    simp only [createBookmarkHandler, h]
    exact hw _
  · intro bm id b h
    simp only [updateBookmarkHandler, h]
    exact hw _
  · intro id h
    simp [deleteBookmarkHandler, h, status]
  · intro id b h
    simp only [getBookmarkHandler, h]
    exact hw _
  · intro l h
    simp only [listBookmarkHandler, h]
    exact hw _

/-- Witness of C15 (amended): the requests of the handler's tests on the empty store: the
empty bookmark is answered with 400, the bookmark that does not exist with 404. -/
theorem handler_status_witness :
    status (createBookmarkHandler (storeOf DB.empty 5 5) (.Value ⟨"", "", none, ""⟩)
      false false) = 400 ∧
    status (getBookmarkHandler (storeOf DB.empty 5 5) 1 false false) = 404 :=
  ⟨(handler_status (storeOf DB.empty 5 5) false false).1 ⟨"", "", none, ""⟩
      (.Validation [Field.Title, Field.URL]) rfl,
    (handler_status (storeOf DB.empty 5 5) false false).2.2.2.1 1 .ErrNotFound rfl⟩

theorem ordered_put {bm : Bookmark} {l : List Bookmark}
    (hl : ∀ r ∈ l, r.CreatedAt ≤ r.UpdatedAt) (hb : bm.CreatedAt ≤ bm.UpdatedAt) :
    ∀ r ∈ put bm l, r.CreatedAt ≤ r.UpdatedAt := by
  intro r hr
  rcases mem_put hr with h | h
  · rw [h]; exact hb
  · exact hl r h

theorem ordered_Add {db : DB} (h : ∀ r ∈ db.bucket, r.CreatedAt ≤ r.UpdatedAt)
    {now₁ now₂ : Time} (hn : now₁ ≤ now₂) (nbm : NewBookmark) :
    ∀ r ∈ (Store.Add db now₁ now₂ nbm).2.bucket, r.CreatedAt ≤ r.UpdatedAt := by
  cases hr : Store.Add db now₁ now₂ nbm with
  | mk res db' =>
    cases res with
    | error e => rw [Add_error hr]; exact h
    | ok b =>
      obtain ⟨-, -, hb, hd, -, -⟩ := Add_ok hr
      show ∀ r ∈ db'.bucket, r.CreatedAt ≤ r.UpdatedAt
      rw [hd]
      apply ordered_put h
      rw [hb]
      exact nowUTC_le hn

theorem ordered_Update {db : DB} (h : ∀ r ∈ db.bucket, r.CreatedAt ≤ r.UpdatedAt)
    {bm : Bookmark}
    (hb : (bm.CreatedAt = 0 ∧ bm.UpdatedAt = 0) ∨
      (bm.CreatedAt ≠ 0 ∧ bm.UpdatedAt ≠ 0 ∧ bm.CreatedAt ≤ bm.UpdatedAt))
    (onlyFields : List String) :
    ∀ r ∈ (Store.Update db bm onlyFields).2.bucket, r.CreatedAt ≤ r.UpdatedAt := by
  cases hr : Store.Update db bm onlyFields with
  | mk res db' =>
    cases res with
    | error e => rw [Update_error hr]; exact h
    | ok b =>
      obtain ⟨-, -, -, -, -, cur, hcur, hd, -, -⟩ := Update_ok hr
      have hc := h cur (OneID_ok hcur).1
      show ∀ r ∈ db'.bucket, r.CreatedAt ≤ r.UpdatedAt
      rw [hd]
      apply ordered_put h
      rcases hb with ⟨h1, h2⟩ | ⟨h1, h2, h3⟩
      · simpa [merge, h1, h2] using hc
      · simpa [merge, h1, h2] using h3

theorem ordered_Delete {db : DB} (h : ∀ r ∈ db.bucket, r.CreatedAt ≤ r.UpdatedAt) (id : Int) :
    ∀ r ∈ (Store.Delete db id).2.bucket, r.CreatedAt ≤ r.UpdatedAt := by
  rcases Delete_snd db id with hd | hd
  · rw [hd]; exact h
  · rw [hd]
    intro r hr
    exact h r (List.mem_of_mem_filter hr)

theorem ordered_importRows (parseTime : String → Option Time) (reads : List ReadResult) :
    ∀ db : DB, (∀ r ∈ db.bucket, r.CreatedAt ≤ r.UpdatedAt) →
      (∀ r ∈ reads, ∀ bm, parseBookmark parseTime r.record = .ok bm →
        bm.CreatedAt ≤ bm.UpdatedAt) →
      ∀ r ∈ (importRows parseTime db reads).2.bucket, r.CreatedAt ≤ r.UpdatedAt := by
  induction reads with
  | nil => intro db h _; exact h
  | cons x rest ih =>
    intro db h hrows
    unfold importRows
    split_ifs with he
    · exact h
    · cases hp : parseBookmark parseTime x.record with
      | panic => exact h
      | err e => exact h
      | ok bm =>
        dsimp only
        cases hs : db.Save bm with
        | error e => exact h
        | ok q =>
          obtain ⟨saved, d⟩ := q
          obtain ⟨h1, h2, -, -⟩ := Save_zero (parseBookmark_ID hp) hs
          have hbm := hrows x (by simp) bm hp
          refine ih d ?_ (fun r hr => hrows r (by simp [hr]))
          rw [h2]
          apply ordered_put h
          rw [h1]
          exact hbm

theorem ordered_exec {parseTime : String → Option Time} {db : DB}
    (h : ∀ r ∈ db.bucket, r.CreatedAt ≤ r.UpdatedAt) {op : Op}
    (ho : op.timesOrdered parseTime) :
    ∀ r ∈ (op.exec parseTime db).bucket, r.CreatedAt ≤ r.UpdatedAt := by
  cases op with
  | Add nbm now₁ now₂ => exact ordered_Add h ho nbm
  | Update bm onlyFields => exact ordered_Update h ho onlyFields
  | Delete id => exact ordered_Delete h id
  | ImportCSV reads =>
    show ∀ r ∈ (Store.ImportCSV parseTime db reads).2.bucket, r.CreatedAt ≤ r.UpdatedAt
    unfold Store.ImportCSV
    cases reads with
    | nil => exact h
    | cons x rest =>
      have hrest : ∀ r ∈ rest, ∀ bm, parseBookmark parseTime r.record = .ok bm →
          bm.CreatedAt ≤ bm.UpdatedAt := fun r hr => ho r (by simp [hr])
      cases he : x.err with
      | some e => simpa [he] using h
      | none =>
        cases hv : validateCSVHeader x.record with
        | none => simpa [he, hv] using h
        | some b =>
          cases b with
          | false => simpa [he, hv] using h
          | true => simpa [he, hv] using ordered_importRows parseTime rest db h hrest

theorem Update_zero_ID (db : DB) {bm : Bookmark} (h : bm.ID = 0) :
    ∃ fs, Store.Update db bm [] = (.error (.Validation (Field.ID :: fs)), db) := by
  refine ⟨(if bm.Title = "" then [Field.Title] else []) ++
    (if bm.URL = "" then [Field.URL] else []), ?_⟩
  simp [Store.Update, validateBookmark, h]

/-- C16 (as stated, refuted): a bookmark is added at instant 5 and updated with a record
that carries created_at 99 and updated_at 1; the stored record then has an updated_at before
its created_at.  The same holds for a row imported with created_at 2020-01-02 and updated_at
2020-01-01. -/
theorem timestamp_order_counterexample :
    (run parseRFC3339 DB.empty
      [Op.Add ⟨"T", "http://t", none, ""⟩ 5 5,
        Op.Update ⟨1, "T", "http://t", none, "", "", 99, 1⟩ []]).bucket =
      [⟨1, "T", "http://t", none, "", "", 99, 1⟩] ∧
    (run parseRFC3339 DB.empty
      [Op.ImportCSV [⟨csvHeader, none⟩,
        ⟨["A", "http://a", "", "", "", "2020-01-02T00:00:00Z", "2020-01-01T00:00:00Z"],
          none⟩]]).bucket =
      [⟨1, "A", "http://a", some [""], "", "", 63713520000000000000,
        63713433600000000000⟩] :=
  ⟨rfl, rfl⟩

/-- C16 (amended): in every state reached from the empty store by calls of `Add` with a
clock that does not go backwards between its two readings, of `Delete`, of `Update` with a
record that carries no timestamps (both are the zero value `time.Time{}`) or both timestamps
(neither is the zero value) with updated_at not before created_at, and of `ImportCSV` with
rows whose updated_at is not before their created_at, every stored record has an updated_at
that is not before its created_at. -/
theorem timestamps_ordered (parseTime : String → Option Time) (ops : List Op)
    (h : ∀ op ∈ ops, op.timesOrdered parseTime) :
    ∀ r ∈ (run parseTime DB.empty ops).bucket, r.CreatedAt ≤ r.UpdatedAt := by
  have key : ∀ (l : List Op) (db : DB), (∀ r ∈ db.bucket, r.CreatedAt ≤ r.UpdatedAt) →
      (∀ op ∈ l, op.timesOrdered parseTime) →
      ∀ r ∈ (run parseTime db l).bucket, r.CreatedAt ≤ r.UpdatedAt := by
    intro l
    induction l with
    | nil => intro db hdb _; exact hdb
    | cons op l ih =>
      intro db hdb hl
      exact ih _ (ordered_exec hdb (hl op (by simp))) (fun o ho => hl o (by simp [ho]))
  exact key ops DB.empty (by simp [DB.empty]) h

/-- Witness of C16 (amended): an `Add`, an `Update` that carries no timestamps, an `Update`
that carries both, the first of them the instant 0 in a zone two hours east of UTC, and one
row that is imported. -/
theorem timestamps_ordered_witness :
    (run parseRFC3339 DB.empty
      [Op.Add ⟨"T", "http://t", none, ""⟩ 5 6,
        Op.Update ⟨1, "T2", "http://t", none, "", "", 0, 0⟩ [],
        Op.Update ⟨1, "T3", "http://t", none, "", "", ⟨0, some 120⟩, ⟨7, some 120⟩⟩ [],
        Op.ImportCSV [⟨csvHeader, none⟩,
          ⟨["A", "http://a", "", "", "", "2020-01-01T00:00:00Z", "2020-01-02T00:00:00Z"],
            none⟩]]).bucket.all (fun r => decide (r.CreatedAt ≤ r.UpdatedAt)) = true :=
  List.all_eq_true.2 fun r hr => decide_eq_true <| timestamps_ordered parseRFC3339 _ (by
    intro op hop
    simp only [List.mem_cons, List.mem_singleton, List.not_mem_nil, or_false] at hop
    rcases hop with rfl | rfl | rfl | rfl
    · show (5 : Time) ≤ 6
      decide
    · exact Or.inl ⟨rfl, rfl⟩
    · exact Or.inr ⟨by decide, by decide, by decide⟩
    · intro r hr bm hbm
      simp only [List.mem_cons, List.mem_singleton, List.not_mem_nil, or_false] at hr
      rcases hr with rfl | rfl
      · have h1 : parseBookmark parseRFC3339 csvHeader = .err .TimeParse := by rfl
        rw [h1] at hbm
        cases hbm
      · have hb : bm = ⟨0, "A", "http://a", some [""], "", "", 63713433600000000000,
            63713520000000000000⟩ := by
          have h2 : parseBookmark parseRFC3339
              ["A", "http://a", "", "", "", "2020-01-01T00:00:00Z", "2020-01-02T00:00:00Z"] =
              .ok ⟨0, "A", "http://a", some [""], "", "", 63713433600000000000,
                63713520000000000000⟩ := by rfl
          rw [h2] at hbm
          exact (Res.ok.inj hbm).symm
        rw [hb]
        decide) r hr

/-- C17: in every state reachable from the empty store, `Update` with a record that has the
id of a stored record, an empty title and an empty url fails with a validation error that
names exactly the two fields `Title` and `URL`, returns no record and leaves the store as it
was, so that `Get` returns afterwards what it returned before. -/
theorem update_invalid_leaves_record (parseTime : String → Option Time) (ops : List Op)
    (bm : Bookmark) (hlive : ∃ r ∈ (run parseTime DB.empty ops).bucket, r.ID = bm.ID)
    (ht : bm.Title = "") (hu : bm.URL = "") :
    Store.Update (run parseTime DB.empty ops) bm [] =
      (.error (.Validation [Field.Title, Field.URL]), run parseTime DB.empty ops) ∧
    ∀ id, Store.Get (Store.Update (run parseTime DB.empty ops) bm []).2 id =
      Store.Get (run parseTime DB.empty ops) id := by
  have hw : WF (run parseTime DB.empty ops) := WF_run parseTime ops DB.empty WF_empty
  obtain ⟨r, hr, hid⟩ := hlive
  have h0 : bm.ID ≠ 0 := by
    have := (hw.2.2.1 r hr).1
    omega
  have hup : Store.Update (run parseTime DB.empty ops) bm [] =
      (.error (.Validation [Field.Title, Field.URL]), run parseTime DB.empty ops) := by
    simp [Store.Update, validateBookmark, h0, ht, hu]
  exact ⟨hup, fun id => by rw [hup]⟩

/-- Witness of C17: the update of the repository's test
`Test_CannotUpdateBookmarkWithInvalidData`. -/
theorem update_invalid_leaves_record_witness :
    Store.Update
        (run parseRFC3339 DB.empty
          [Op.Add ⟨"test title", "https://test.com", some ["tag"], "test Note"⟩ 5 5])
        ⟨1, "", "", some ["tag2", "tag3"], "test Note", "", 5, 5⟩ [] =
      (.error (.Validation [Field.Title, Field.URL]),
        run parseRFC3339 DB.empty
          [Op.Add ⟨"test title", "https://test.com", some ["tag"], "test Note"⟩ 5 5]) :=
  (update_invalid_leaves_record parseRFC3339
    [Op.Add ⟨"test title", "https://test.com", some ["tag"], "test Note"⟩ 5 5]
    ⟨1, "", "", some ["tag2", "tag3"], "test Note", "", 5, 5⟩
    ⟨⟨1, "test title", "https://test.com", some ["tag"], "test Note", "", 5, 5⟩, by decide,
      rfl⟩ rfl rfl).1

theorem Handler_post_zero (repo : Storager) (nb : Body NewBookmark) (b : Body Bookmark)
    (marshalFails writeFails : Bool) :
    Handler repo ⟨.POST, "/bookmark/0", nb, b⟩ marshalFails writeFails =
      updateBookmarkHandler repo b 0 marshalFails writeFails := by
  have hs1 : ShiftPath "/bookmark/0" = ("bookmark", "/0") := by rfl
  have hs2 : ShiftPath "/0" = ("0", "/") := by rfl
  have ha : atoi "0" = some 0 := by decide
  have hne : ¬ ("/0" = "/") := by decide
  simp only [Handler, hs1, if_true, BookmarkHandler, hne, if_false, hs2, ha]

theorem clientUpdateRequest_zero {bm : Bookmark} (h : bm.ID = 0) :
    clientUpdateRequest bm =
      ⟨.POST, "/bookmark/0", .Value ⟨bm.Title, bm.URL, bm.Tags, bm.Notes⟩, .Value bm⟩ := by
  have hi : "/bookmark/" ++ itoa 0 = "/bookmark/0" := by decide
  simp only [clientUpdateRequest, h, hi]

/-- C20 (evaluation of the code): the record that the `update` command hands to the client
has the argument as its url and never an id, so its id is 0 whatever the argument and the
flags are.  The client posts it to the path `/bookmark/0`, the handler routes the request to
the id 0 and `Update` rejects the record with a validation error that names the field `ID`:
the answer is status 400 for every argument, every flag value and every state of the
store. -/
theorem cli_update_sends_id_zero (arg title tags note : String) (db : DB) (now₁ now₂ : Time)
    (marshalFails writeFails : Bool) :
    (updateHandlerRecord arg title tags note).ID = 0 ∧
    (updateHandlerRecord arg title tags note).URL = arg ∧
    (clientUpdateRequest (updateHandlerRecord arg title tags note)).path = "/bookmark/0" ∧
    (∃ fs, Store.Update db (updateHandlerRecord arg title tags note) [] =
      (.error (.Validation (Field.ID :: fs)), db)) ∧
    status (Handler (storeOf db now₁ now₂)
      (clientUpdateRequest (updateHandlerRecord arg title tags note))
      marshalFails writeFails) = 400 := by
  have hz : (updateHandlerRecord arg title tags note).ID = 0 := rfl
  have hreq := clientUpdateRequest_zero hz
  obtain ⟨fs, hfs⟩ := Update_zero_ID db hz
  refine ⟨hz, rfl, by rw [hreq], ⟨fs, hfs⟩, ?_⟩
  have hrepo : (storeOf db now₁ now₂).Update
      { updateHandlerRecord arg title tags note with ID := 0 } =
      .error (.Validation (Field.ID :: fs)) := by
    show (Store.Update db (updateHandlerRecord arg title tags note) []).1 = _
    rw [hfs]
  rw [hreq, Handler_post_zero]
  simp only [updateBookmarkHandler, hrepo]
  rfl

end Librarian
